import Mathlib

/-!
# Verification of the vulpo DBF-access layer

A shallow embedding of the Go package `vulpo` (typed field decoding,
cursor navigation, index/seek protocol, deleted-record lifecycle and the
pattern/expression search engine), together with theorems settling the
frozen claims about it.

The Go layer sits on top of the vendored CodeBase storage engine
(`d4top`, `d4skip`, `d4seek`, `d4pack`, ...), whose C implementation is
not part of the repository (only headers are vendored); those engine
primitives are modelled from the specification and are marked
`Modelled from the spec:` in their doc comments.  Everything else is a
direct translation of the Go source.
-/

deriving instance DecidableEq for Except

namespace Vulpo

/-- Errors produced by the Go layer.  `NewError`/`NewErrorf` build plain
message errors; `NewConversionError` builds the standardized conversion
error of `unnamed/part_007` (message form: cannot convert X to Y). -/
inductive Err where
  | msg (s : String)
  | conv (src tgt : String)
deriving Repr, DecidableEq

/-! ## Models of the Go standard-library string helpers

The Go code uses `strings.TrimSpace`, `strings.ToUpper`, `strconv.Atoi`
and `strconv.ParseFloat` from the Go standard library.  They are
modelled here over `List Char`; whitespace is the ASCII subset of
Unicode space (the repository only stores ASCII field data). -/

/-- The ASCII whitespace characters recognized by the model of
`strings.TrimSpace`. -/
def isSpaceChar (c : Char) : Bool :=
  c == ' ' || c == '\t' || c == '\n' || c == '\x0b' || c == '\x0c' || c == '\r'

/-- Trim whitespace from both ends of a character list. -/
def trimChars (l : List Char) : List Char :=
  ((l.dropWhile isSpaceChar).reverse.dropWhile isSpaceChar).reverse

/-- Model of Go `strings.TrimSpace`. -/
def goTrimSpace (s : String) : String :=
  String.mk (trimChars s.data)

/-- Model of Go `strings.ToUpper` (ASCII case folding). -/
def goToUpper (s : String) : String :=
  String.mk (s.data.map Char.toUpper)

/-- `true` iff the character is an ASCII decimal digit. -/
def isDigitChar (c : Char) : Bool :=
  '0' ≤ c && c ≤ '9'

/-- All characters of the list are ASCII decimal digits. -/
def allDigits (l : List Char) : Bool :=
  l.all isDigitChar

/-- Numeric value of a list of ASCII digits. -/
def digitsVal (l : List Char) : Nat :=
  l.foldl (fun a c => a * 10 + (c.toNat - 48)) 0

/-- Model of Go `strconv.Atoi`: an optional sign followed by a nonempty
run of decimal digits; anything else is an error (`none`).  The 64-bit
overflow error of the real function is outside the model. -/
def goAtoi (s : String) : Option Int :=
  match s.data with
  | [] => none
  | '+' :: rest =>
      if rest ≠ [] && allDigits rest then some (digitsVal rest) else none
  | '-' :: rest =>
      if rest ≠ [] && allDigits rest then some (-(digitsVal rest : Int)) else none
  | l => if allDigits l then some (digitsVal l) else none

/-- Mantissa of a decimal float literal: digits with at most one dot,
at least one digit overall.  Returns its exact rational value. -/
def parseMantissa (l : List Char) : Option ℚ :=
  let intPart := l.takeWhile (fun c => c ≠ '.')
  let rest := l.dropWhile (fun c => c ≠ '.')
  match rest with
  | [] =>
      if intPart ≠ [] && allDigits intPart then some (digitsVal intPart : ℚ) else none
  | _ :: fracPart =>
      if (intPart ≠ [] || fracPart ≠ []) && allDigits intPart && allDigits fracPart
        && fracPart.all (fun c => c ≠ '.') then
        some ((digitsVal (intPart ++ fracPart) : ℚ) / ((10 : ℚ) ^ fracPart.length))
      else none

/-- Signed exponent of a decimal float literal. -/
def parseExponent (l : List Char) : Option Int :=
  match l with
  | '+' :: rest => if rest ≠ [] && allDigits rest then some (digitsVal rest) else none
  | '-' :: rest => if rest ≠ [] && allDigits rest then some (-(digitsVal rest : Int)) else none
  | rest => if rest ≠ [] && allDigits rest then some (digitsVal rest) else none

/-- Value of a rational scaled by a signed power of ten. -/
def scalePow10 (q : ℚ) (e : Int) : ℚ :=
  match e with
  | .ofNat n => q * (10 : ℚ) ^ n
  | .negSucc n => q / (10 : ℚ) ^ (n + 1)

/-- Model of Go `strconv.ParseFloat` restricted to finite decimal
syntax: optional sign, decimal mantissa, optional `e`/`E` exponent.
The exact rational value is returned; binary rounding to float64, hex
float syntax and the non-finite literals (`inf`, `nan`) are outside the
model. -/
def goParseFloat (s : String) : Option ℚ :=
  let core : List Char → Option ℚ := fun l =>
    let mant := l.takeWhile (fun c => c ≠ 'e' && c ≠ 'E')
    let rest := l.dropWhile (fun c => c ≠ 'e' && c ≠ 'E')
    match rest with
    | [] => parseMantissa mant
    | _ :: expPart =>
        match parseMantissa mant, parseExponent expPart with
        | some m, some e => some (scalePow10 m e)
        | _, _ => none
  match s.data with
  | [] => none
  | '+' :: rest => core rest
  | '-' :: rest => (core rest).map Neg.neg
  | l => core l

/-! ## Typed field decoders (`field.string.go`, `field.date.go`)

A field reader observes the database only through `checkActive`
(database open and cursor positioned at a row) and through the raw
bytes the engine exposes for the current row (`f4str` / `f4ptr`).  The
decoders are therefore modelled as functions of a `positioned` flag and
the raw stored text. -/

namespace StringField

/-- `StringField.Value` / `AsString` of `field.string.go`: the raw text
returned by `f4str`, trimmed of surrounding whitespace.  `positioned`
models `checkActive()` succeeding (open, not BOF, not EOF). -/
def AsString (positioned : Bool) (stored : String) : Except Err String :=
  if !positioned then .error (.msg "database not open or not positioned")
  else .ok (goTrimSpace stored)

/-- `StringField.AsInt` of `field.string.go`: trim, empty text is 0
with no error, otherwise `strconv.Atoi` with `ConversionError` on
failure. -/
def AsInt (positioned : Bool) (stored : String) : Except Err Int :=
  match AsString positioned stored with
  | .error e => .error e
  | .ok strVal =>
      let strVal := goTrimSpace strVal
      if strVal == "" then .ok 0
      else
        match goAtoi strVal with
        | some v => .ok v
        | none => .error (.conv "character" "integer")

/-- `StringField.AsFloat` of `field.string.go`: trim, empty text is 0
with no error, otherwise `strconv.ParseFloat` with `ConversionError` on
failure. -/
def AsFloat (positioned : Bool) (stored : String) : Except Err ℚ :=
  match AsString positioned stored with
  | .error e => .error e
  | .ok strVal =>
      let strVal := goTrimSpace strVal
      if strVal == "" then .ok 0
      else
        match goParseFloat strVal with
        | some v => .ok v
        | none => .error (.conv "character" "float")

/-- `StringField.AsBool` of `field.string.go`: the fixed token sets
after upper-casing the trimmed text. -/
def AsBool (positioned : Bool) (stored : String) : Except Err Bool :=
  match AsString positioned stored with
  | .error e => .error e
  | .ok strVal =>
      let strVal := goToUpper (goTrimSpace strVal)
      if strVal == "T" || strVal == "TRUE" || strVal == "Y" || strVal == "YES"
          || strVal == "1" then .ok true
      else if strVal == "F" || strVal == "FALSE" || strVal == "N" || strVal == "NO"
          || strVal == "0" || strVal == "" then .ok false
      else .error (.conv "character" "boolean")

end StringField

/-- A calendar date as handed to Go `time.Date` by `DateField.AsTime`
(the components are passed through without normalization in the model;
the claims under verification only concern decode success). -/
structure GoDate where
  year : Int
  month : Int
  day : Int
deriving Repr, DecidableEq

/-- The blank date value of `field.date.go` (eight spaces). -/
def blankDateValue : String := "        "

namespace DateField

/-- `DateField.AsString` of `field.date.go`: the raw eight bytes in
YYYYMMDD form; blank (all spaces or empty) yields the empty string with
no error.  `stored` is the raw field buffer read by `GoStringN(ptr, 8)`
and its length models `f4len`. -/
def AsString (positioned : Bool) (stored : String) : Except Err String :=
  if !positioned then .error (.msg "database not open or not positioned")
  else if stored.length ≠ 8 then .error (.msg "invalid date field length")
  else if stored = blankDateValue ∨ stored = "" then .ok ""
  else .ok stored

/-- `DateField.AsTime` of `field.date.go`: blank decodes to the zero
time (`none`); otherwise the 4/2/2 split is parsed with
`strconv.Atoi` and the month/day ranges are checked. -/
def AsTime (positioned : Bool) (stored : String) : Except Err (Option GoDate) :=
  match AsString positioned stored with
  | .error e => .error e
  | .ok dateStr =>
      if dateStr = "" ∨ dateStr = blankDateValue then .ok none
      else if dateStr.length ≠ 8 then .error (.msg "invalid date format")
      else
        match goAtoi (String.mk (dateStr.data.take 4)) with
        | none => .error (.msg "invalid year in date")
        | some year =>
            match goAtoi (String.mk ((dateStr.data.drop 4).take 2)) with
            | none => .error (.msg "invalid month in date")
            | some month =>
                match goAtoi (String.mk (dateStr.data.drop 6)) with
                | none => .error (.msg "invalid day in date")
                | some day =>
                    if month < 1 ∨ month > 12 then .error (.msg "invalid month in date")
                    else if day < 1 ∨ day > 31 then .error (.msg "invalid day in date")
                    else .ok (some ⟨year, month, day⟩)

end DateField

/-! ## The table / cursor model

The storage engine (CodeBase `DATA4`) is modelled from the spec, §3 and
§4.2–§4.3: a table owns a list of rows in physical order (record
numbers are 1-based), a single character column (the column the claims
exercise), a set of named index tags, a selected ordering and a cursor
that is BOF, EOF or positioned at a record. -/

/-- One physical row: the raw (untrimmed) text of the table's character
column, and the soft-delete flag. -/
structure Row where
  value : String
  deleted : Bool
deriving Repr, DecidableEq

/-- Cursor state (spec §4.2): before-first, after-last, or positioned
at 1-based physical record `n`. -/
inductive Cursor where
  | bof
  | eof
  | pos (n : Nat)
deriving Repr, DecidableEq

/-- The Go-level `Tag` handle of `vulpo.index.go`: a name and the
validity of the underlying `TAG4` pointer. -/
structure GoTag where
  name : String
  valid : Bool
deriving Repr, DecidableEq

/-- Modelled from the spec: an open table handle.  `tagNames` are the
table's index tags, in `ListTags` order; every tag orders the rows by
the raw text of the character column (stable by record number), which
is how the repository's tags on that column behave.  `selTag = none`
is physical (record-number) ordering. -/
structure DB where
  isOpen : Bool
  fieldName : String
  rows : List Row
  tagNames : List String
  selTag : Option String
  cur : Cursor
deriving Repr, DecidableEq

/-- The row stored at 1-based record number `n`. -/
def rowAt (db : DB) (n : Nat) : Row :=
  db.rows.getD (n - 1) ⟨"", false⟩

/-- Raw (untrimmed) character-column text of record `n`; this is also
the index key of record `n` under every tag of the model. -/
def rawValue (db : DB) (n : Nat) : String :=
  (rowAt db n).value

/-- Physical ordering: record numbers 1..N. -/
def physOrder (db : DB) : List Nat :=
  List.range' 1 db.rows.length

/-- Strict lexicographic order on character lists by code point. -/
def lexLt : List Char → List Char → Bool
  | [], [] => false
  | [], _ :: _ => true
  | _ :: _, [] => false
  | a :: as, b :: bs =>
      if a.toNat < b.toNat then true
      else if b.toNat < a.toNat then false
      else lexLt as bs

/-- Lexicographic `≤` on character lists. -/
def lexLe (a b : List Char) : Bool := !lexLt b a

/-- Insert a record into a key-sorted record list, after all records
with key `≤` its own (stable insertion). -/
def insertOrdered (key : Nat → List Char) (r : Nat) : List Nat → List Nat
  | [] => [r]
  | x :: xs =>
      if lexLe (key x) (key r) then x :: insertOrdered key r xs
      else r :: x :: xs

/-- Modelled from the spec: the alternate ordering of an index tag —
the records sorted by raw key, ties kept in physical order. -/
def tagOrder (db : DB) : List Nat :=
  (physOrder db).foldl (fun acc r => insertOrdered (fun n => (rawValue db n).data) r acc) []

/-- The traversal order of the currently selected ordering
(spec §4.2: all positioning delegates to the active ordering). -/
def order (db : DB) : List Nat :=
  match db.selTag with
  | none => physOrder db
  | some _ => tagOrder db

/-- The record that follows the first occurrence of `n` in an
ordering. -/
def nextInOrder : List Nat → Nat → Option Nat
  | [], _ => none
  | x :: rest, n => if x = n then rest.head? else nextInOrder rest n

/-! ### Engine primitives (modelled from the spec)

The C implementations of `d4top`, `d4skip`, `d4go`, `d4recNo`,
`d4deleted`, `d4delete`, `d4recall`, `d4pack`, `d4seek` and
`d4tagSelect` are not part of the repository; they are modelled here
from spec §4.2–§4.4.  Nonzero return codes are errors (the concrete
code values mirror CodeBase's `r4eof` = 3, `r4entry` = 2). -/

/-- Modelled from the spec: go to the first record of the active
ordering; an empty table leaves the cursor at EOF and reports `r4eof`. -/
def d4top (db : DB) : DB × Int :=
  match order db with
  | [] => ({ db with cur := .eof }, 3)
  | r :: _ => ({ db with cur := .pos r }, 0)

/-- Modelled from the spec: skip forward one record in the active
ordering; skipping past the last record parks the cursor at EOF and
reports `r4eof`. -/
def d4skip1 (db : DB) : DB × Int :=
  match db.cur with
  | .eof => ({ db with cur := .eof }, 3)
  | .bof => d4top db
  | .pos n =>
      match nextInOrder (order db) n with
      | some m => ({ db with cur := .pos m }, 0)
      | none => ({ db with cur := .eof }, 3)

/-- Modelled from the spec: position at physical record `n`
(1-based); out-of-range record numbers are an error. -/
def d4go (db : DB) (n : Int) : DB × Int :=
  if 1 ≤ n ∧ n ≤ (db.rows.length : Int) then ({ db with cur := .pos n.toNat }, 0)
  else (db, 2)

/-- Modelled from the spec: the deletion flag of the current record. -/
def d4deleted (db : DB) : Bool :=
  match db.cur with
  | .pos n => (rowAt db n).deleted
  | _ => false

/-- Set the deletion flag of the current record, when positioned. -/
def setDeletedFlag (db : DB) (b : Bool) : DB :=
  match db.cur with
  | .pos n => { db with rows := db.rows.set (n - 1) { rowAt db n with deleted := b } }
  | _ => db

/-- Modelled from the spec: `d4pack` removes every flagged row,
rebuilds the indexes and leaves the cursor position undefined
(modelled as EOF). -/
def d4pack (db : DB) : DB × Int :=
  ({ db with rows := db.rows.filter (fun r => !r.deleted), cur := .eof }, 0)

/-- Modelled from the spec: keyed search under the selected ordering.
Character-tag seeks compare the search string against the leading
`key.length` bytes of each raw index key: the first record whose
truncated key is `≥` the search string is the landing point —
`r4success` (0) on equality, `r4after` (1) otherwise, `r4eof` (2, and
cursor to EOF) when every key sorts below the search string, and
`r4noTag` (−1) when no index ordering is selected. -/
def d4seek (db : DB) (key : String) : DB × Int :=
  match db.selTag with
  | none => (db, -1)
  | some _ =>
      match (tagOrder db).find? (fun r => lexLe key.data ((rawValue db r).data.take key.length)) with
      | some r =>
          if (rawValue db r).data.take key.length = key.data
          then ({ db with cur := .pos r }, 0)
          else ({ db with cur := .pos r }, 1)
      | none => ({ db with cur := .eof }, 2)

/-- Modelled from the spec: numeric keyed search (`d4seekDouble`).  The
model's single column is text, so a numeric seek finds no matching key:
EOF classification under an index ordering, `r4noTag` without one. -/
def d4seekDouble (db : DB) (_x : ℚ) : DB × Int :=
  match db.selTag with
  | none => (db, -1)
  | some _ => ({ db with cur := .eof }, 2)

/-! ### Go-level navigation (`mkfdbflib/c4trans.h` Go part) and
index selection (`vulpo.index.go`). -/

/-- `Vulpo.Active`: the table handle is open. -/
def Active (db : DB) : Bool := db.isOpen

/-- `Vulpo.EOF` of the Go layer: false on a closed table. -/
def EOF (db : DB) : Bool :=
  if !Active db then false
  else match db.cur with
  | .eof => true
  | _ => false

/-- `Vulpo.BOF` of the Go layer: false on a closed table. -/
def BOF (db : DB) : Bool :=
  if !Active db then false
  else match db.cur with
  | .bof => true
  | _ => false

/-- `Vulpo.Position`: the 1-based record number, or −1 when closed or
at BOF/EOF. -/
def Position (db : DB) : Int :=
  if !Active db then -1
  else match db.cur with
  | .pos n => (n : Int)
  | _ => -1

/-- `Vulpo.Goto`: reject non-positive targets, then `d4go`. -/
def Goto (db : DB) (n : Int) : Except Err Unit × DB :=
  if !Active db then (.error (.msg "database not open"), db)
  else if n ≤ 0 then (.error (.msg "invalid record index"), db)
  else
    let (db, code) := d4go db n
    if code ≠ 0 then (.error (.msg "failed to go to record"), db)
    else (.ok (), db)

/-- `Vulpo.Next`: `d4skip(1)`. -/
def Next (db : DB) : Except Err Unit × DB :=
  if !Active db then (.error (.msg "database not open"), db)
  else
    let (db, code) := d4skip1 db
    if code ≠ 0 then (.error (.msg "failed to move to next record"), db)
    else (.ok (), db)

/-- `Vulpo.First`: `d4top`. -/
def First (db : DB) : Except Err Unit × DB :=
  if !Active db then (.error (.msg "database not open"), db)
  else
    let (db, code) := d4top db
    if code ≠ 0 then (.error (.msg "failed to go to first record"), db)
    else (.ok (), db)

/-- `Vulpo.SelectedTag` of `vulpo.index.go`: the currently selected
tag as a Go `Tag` handle, `none` when no tag is selected or the table
is closed. -/
def SelectedTag (db : DB) : Option GoTag :=
  if !Active db then none
  else db.selTag.map (fun nm => ⟨nm, true⟩)

/-- `Vulpo.SelectTag` of `vulpo.index.go`: `nil` selects physical
ordering; an invalid tag handle is rejected. -/
def SelectTag (db : DB) (t : Option GoTag) : Except Err Unit × DB :=
  if !Active db then (.error (.msg "database not open"), db)
  else match t with
  | none => (.ok (), { db with selTag := none })
  | some tg =>
      if !tg.valid then (.error (.msg "invalid tag"), db)
      else (.ok (), { db with selTag := some tg.name })

/-- The `SeekResult` classification of `vulpo.index.go`. -/
inductive SeekResultM where
  | success
  | after
  | atEof
  | entry
  | locked
  | unique
  | noTag
  | seekError
deriving Repr, DecidableEq

/-- `convertSeekResult` of `vulpo.index.go`. -/
def convertSeekResult (code : Int) : SeekResultM :=
  if code = 0 then .success
  else if code = 1 then .after
  else if code = 2 then .atEof
  else if code = 3 then .entry
  else if code = 4 then .locked
  else if code = 5 then .unique
  else if code = -1 then .noTag
  else .seekError

/-- `IsPositioned` of `vulpo.index.go`: `Success` or `After`. -/
def SeekResultM.IsPositioned (sr : SeekResultM) : Bool :=
  sr == .success || sr == .after

/-- `Vulpo.Seek` of `vulpo.index.go`. -/
def Seek (db : DB) (key : String) : (Except Err SeekResultM) × DB :=
  if !Active db then (.error (.msg "database not open"), db)
  else
    let (db, code) := d4seek db key
    (.ok (convertSeekResult code), db)

/-- `Vulpo.SeekDouble` of `vulpo.index.go`. -/
def SeekDouble (db : DB) (x : ℚ) : (Except Err SeekResultM) × DB :=
  if !Active db then (.error (.msg "database not open"), db)
  else
    let (db, code) := d4seekDouble db x
    (.ok (convertSeekResult code), db)

/-- `Vulpo.SeekWithTag` of `vulpo.index.go`: select the given tag,
seek, and restore the previously selected ordering on every exit past
the tag selection. -/
def SeekWithTag (db : DB) (tag : Option GoTag) (key : String) :
    (Except Err SeekResultM) × DB :=
  if !Active db then (.error (.msg "database not open"), db)
  else match tag with
  | none => (.error (.msg "tag cannot be nil"), db)
  | some tg =>
      if !tg.valid then (.error (.msg "invalid tag"), db)
      else
        let originalTag := SelectedTag db
        match SelectTag db (some tg) with
        | (.error e, db) => (.error e, db)
        | (.ok _, db) =>
            let (res, db) := Seek db key
            let (_, db) := SelectTag db originalTag
            (res, db)

/-- The deferred restore block shared by the aggregate scans of
`vulpo.deleted.go` (and the search engine): re-select the saved tag,
ignoring errors, then `Goto` the saved position when it was a concrete
record number. -/
def restoreState (originalTag : Option GoTag) (originalPosition : Int) (db : DB) : DB :=
  let db := (SelectTag db originalTag).2
  if originalPosition > 0 then (Goto db originalPosition).2 else db

/-- The position-only deferred restore used by the search scans that
save no tag. -/
def restorePos (originalPosition : Int) (db : DB) : DB :=
  if originalPosition > 0 then (Goto db originalPosition).2 else db

/-- `Vulpo.SeekDoubleWithTag` of `vulpo.index.go`. -/
def SeekDoubleWithTag (db : DB) (tag : Option GoTag) (x : ℚ) :
    (Except Err SeekResultM) × DB :=
  if !Active db then (.error (.msg "database not open"), db)
  else match tag with
  | none => (.error (.msg "tag cannot be nil"), db)
  | some tg =>
      if !tg.valid then (.error (.msg "invalid tag"), db)
      else
        let originalTag := SelectedTag db
        match SelectTag db (some tg) with
        | (.error e, db) => (.error e, db)
        | (.ok _, db) =>
            let (res, db) := SeekDouble db x
            let (_, db) := SelectTag db originalTag
            (res, db)

/-! ## Deleted-record lifecycle (`vulpo.deleted.go`) -/

/-- `Vulpo.Deleted`: false on a closed table or at BOF/EOF, otherwise
the current record's flag. -/
def Deleted (db : DB) : Bool :=
  if !Active db then false
  else if EOF db || BOF db then false
  else d4deleted db

/-- `Vulpo.Delete`: mark the current record for deletion; errors on a
closed table or at BOF/EOF. -/
def Delete (db : DB) : Except Err Unit × DB :=
  if !Active db then (.error (.msg "database not open"), db)
  else if EOF db || BOF db then (.error (.msg "no current record to delete"), db)
  else (.ok (), setDeletedFlag db true)

/-- `Vulpo.Recall`: clear the current record's deletion mark; errors
on a closed table or at BOF/EOF. -/
def Recall (db : DB) : Except Err Unit × DB :=
  if !Active db then (.error (.msg "database not open"), db)
  else if EOF db || BOF db then (.error (.msg "no current record to recall"), db)
  else (.ok (), setDeletedFlag db false)

/-- `Vulpo.Pack`: physically remove every record marked for deletion
(`d4pack`, modelled from the spec). -/
def Pack (db : DB) : Except Err Unit × DB :=
  if !Active db then (.error (.msg "database not open"), db)
  else
    let (db, code) := d4pack db
    if code ≠ 0 then (.error (.msg "failed to pack database"), db)
    else (.ok (), db)

/-- The `first … while not EOF … next` sweep of `CountDeleted`,
counting flagged records.  `fuel` bounds the iteration count; every
caller supplies at least the table length plus one, which the
accompanying lemmas show is sufficient. -/
def countDeletedLoop : Nat → DB → Nat → Nat × DB
  | 0, db, count => (count, db)
  | fuel + 1, db, count =>
      if EOF db then (count, db)
      else
        let count := if Deleted db then count + 1 else count
        match Next db with
        | (.error _, db) => (count, db)
        | (.ok _, db) => countDeletedLoop fuel db count

/-- `Vulpo.CountDeleted`: force physical ordering, sweep, and restore
the saved position and tag selection on every exit. -/
def CountDeleted (db : DB) : Except Err Int × DB :=
  if !Active db then (.error (.msg "database not open"), db)
  else
    let originalPosition := Position db
    let originalTag := SelectedTag db
    match SelectTag db none with
    | (.error e, db) => (.error e, restoreState originalTag originalPosition db)
    | (.ok _, db) =>
        match First db with
        | (.error _, db) =>
            (.error (.msg "failed to go to first record"),
             restoreState originalTag originalPosition db)
        | (.ok _, db) =>
            let (count, db) := countDeletedLoop (db.rows.length + 1) db 0
            (.ok (count : Int), restoreState originalTag originalPosition db)

/-- The sweep of `CountActive`, counting unflagged records. -/
def countActiveLoop : Nat → DB → Nat → Nat × DB
  | 0, db, count => (count, db)
  | fuel + 1, db, count =>
      if EOF db then (count, db)
      else
        let count := if !Deleted db then count + 1 else count
        match Next db with
        | (.error _, db) => (count, db)
        | (.ok _, db) => countActiveLoop fuel db count

/-- `Vulpo.CountActive`. -/
def CountActive (db : DB) : Except Err Int × DB :=
  if !Active db then (.error (.msg "database not open"), db)
  else
    let originalPosition := Position db
    let originalTag := SelectedTag db
    match SelectTag db none with
    | (.error e, db) => (.error e, restoreState originalTag originalPosition db)
    | (.ok _, db) =>
        match First db with
        | (.error _, db) =>
            (.error (.msg "failed to go to first record"),
             restoreState originalTag originalPosition db)
        | (.ok _, db) =>
            let (count, db) := countActiveLoop (db.rows.length + 1) db 0
            (.ok (count : Int), restoreState originalTag originalPosition db)

/-- `DeletedRecordInfo` of `vulpo.deleted.go`. -/
structure DeletedRecordInfo where
  recordNumber : Int
  isDeleted : Bool
deriving Repr, DecidableEq

/-- The sweep of `ListDeletedRecords`, collecting the record numbers of
flagged records. -/
def listDeletedLoop : Nat → DB → List DeletedRecordInfo → List DeletedRecordInfo × DB
  | 0, db, acc => (acc, db)
  | fuel + 1, db, acc =>
      if EOF db then (acc, db)
      else
        let acc := if Deleted db then acc ++ [⟨Position db, true⟩] else acc
        match Next db with
        | (.error _, db) => (acc, db)
        | (.ok _, db) => listDeletedLoop fuel db acc

/-- `Vulpo.ListDeletedRecords`. -/
def ListDeletedRecords (db : DB) : Except Err (List DeletedRecordInfo) × DB :=
  if !Active db then (.error (.msg "database not open"), db)
  else
    let originalPosition := Position db
    let originalTag := SelectedTag db
    match SelectTag db none with
    | (.error e, db) => (.error e, restoreState originalTag originalPosition db)
    | (.ok _, db) =>
        match First db with
        | (.error _, db) =>
            (.error (.msg "failed to go to first record"),
             restoreState originalTag originalPosition db)
        | (.ok _, db) =>
            let (acc, db) := listDeletedLoop (db.rows.length + 1) db []
            (.ok acc, restoreState originalTag originalPosition db)

/-- The sweep of `ForEachDeletedRecord`: run the callback on each
flagged record's number, aborting on a callback error. -/
def forEachDeletedLoop (cb : Int → Except Err Unit) :
    Nat → DB → Except Err Unit × DB
  | 0, db => (.ok (), db)
  | fuel + 1, db =>
      if EOF db then (.ok (), db)
      else
        match (if Deleted db then cb (Position db) else .ok ()) with
        | .error e => (.error e, db)
        | .ok _ =>
            match Next db with
            | (.error _, db) => (.ok (), db)
            | (.ok _, db) => forEachDeletedLoop cb fuel db

/-- `Vulpo.ForEachDeletedRecord`: the callback's error is propagated,
but position and ordering are still restored. -/
def ForEachDeletedRecord (db : DB) (cb : Int → Except Err Unit) :
    Except Err Unit × DB :=
  if !Active db then (.error (.msg "database not open"), db)
  else
    let originalPosition := Position db
    let originalTag := SelectedTag db
    match SelectTag db none with
    | (.error e, db) => (.error e, restoreState originalTag originalPosition db)
    | (.ok _, db) =>
        match First db with
        | (.error _, db) =>
            (.error (.msg "failed to go to first record"),
             restoreState originalTag originalPosition db)
        | (.ok _, db) =>
            let (res, db) := forEachDeletedLoop cb (db.rows.length + 1) db
            (res, restoreState originalTag originalPosition db)

/-- The sweep of `RecallAllDeleted`: `d4recall` each flagged record. -/
def recallAllLoop : Nat → DB → Nat → Nat × DB
  | 0, db, count => (count, db)
  | fuel + 1, db, count =>
      if EOF db then (count, db)
      else
        let (db, count) :=
          if Deleted db then (setDeletedFlag db false, count + 1) else (db, count)
        match Next db with
        | (.error _, db) => (count, db)
        | (.ok _, db) => recallAllLoop fuel db count

/-- `Vulpo.RecallAllDeleted`. -/
def RecallAllDeleted (db : DB) : Except Err Int × DB :=
  if !Active db then (.error (.msg "database not open"), db)
  else
    let originalPosition := Position db
    let originalTag := SelectedTag db
    match SelectTag db none with
    | (.error e, db) => (.error e, restoreState originalTag originalPosition db)
    | (.ok _, db) =>
        match First db with
        | (.error _, db) =>
            (.error (.msg "failed to go to first record"),
             restoreState originalTag originalPosition db)
        | (.ok _, db) =>
            let (count, db) := recallAllLoop (db.rows.length + 1) db 0
            (.ok (count : Int), restoreState originalTag originalPosition db)

/-- The integer a Go `(int, error)` pair carries: the model's `Except`
encodes the error case, whose accompanying Go integer is always 0 in
`vulpo.deleted.go`. -/
def goIntOf (r : Except Err Int) : Int :=
  match r with
  | .ok k => k
  | .error _ => 0

/-! ## Expression search engine (`unnamed/part_010`)

A compiled dBASE expression (`ExprFilter`) is evaluated by the engine
against the current row; the model takes the compiled predicate as a
function of the current record number and row (compilation by
`expr4parseLow` is assumed to have succeeded).  `Evaluate` never errors
once the filter is compiled, matching `expr4true`. -/

/-- The row under the cursor (only read while positioned). -/
def currentRow (db : DB) : Row :=
  match db.cur with
  | .pos n => rowAt db n
  | _ => ⟨"", false⟩

/-- `ExprSearchOptions` of `unnamed/part_010`. -/
structure ExprSearchOptionsM where
  maxResults : Int := 0
  useIndex : Bool := false
deriving Repr, DecidableEq

/-- `ExprMatch` of `unnamed/part_010`: the matched record's number and
the per-column reader snapshot (the model's single column's row). -/
structure ExprMatchM where
  recordNumber : Int
  snapshot : Row
deriving Repr, DecidableEq

/-- `ExprSearchResult` of `unnamed/part_010`. -/
structure ExprSearchResultM where
  matchList : List ExprMatchM
  totalScanned : Nat
  totalMatched : Nat
deriving Repr, DecidableEq

/-- The scan loop of `SearchByExpression`: evaluate the predicate on
each row, collect a match entry per hit, and break early once
`MaxResults` is reached. -/
def searchExprLoop (pred : Int → Row → Bool) (maxResults : Int) :
    Nat → DB → List ExprMatchM → Nat → List ExprMatchM × Nat × DB
  | 0, db, acc, scanned => (acc, scanned, db)
  | fuel + 1, db, acc, scanned =>
      if EOF db then (acc, scanned, db)
      else
        let scanned := scanned + 1
        if pred (Position db) (currentRow db) then
          let acc := acc ++ [⟨Position db, currentRow db⟩]
          if maxResults > 0 ∧ (acc.length : Int) ≥ maxResults then (acc, scanned, db)
          else
            match Next db with
            | (.error _, db) => (acc, scanned, db)
            | (.ok _, db) => searchExprLoop pred maxResults fuel db acc scanned
        else
          match Next db with
          | (.error _, db) => (acc, scanned, db)
          | (.ok _, db) => searchExprLoop pred maxResults fuel db acc scanned

/-- `Vulpo.SearchByExpression`: walk `first…EOF…next` under the
currently selected ordering, evaluating the compiled predicate per
row; the saved position is restored on exit when it was a concrete
record number. -/
def SearchByExpression (db : DB) (pred : Int → Row → Bool)
    (options : ExprSearchOptionsM) : Except Err ExprSearchResultM × DB :=
  if !Active db then (.error (.msg "database not open"), db)
  else
    let originalPosition := Position db
    match First db with
    | (.error _, db) =>
        (.error (.msg "failed to go to first record"), restorePos originalPosition db)
    | (.ok _, db) =>
        let (acc, scanned, db) :=
          searchExprLoop pred options.maxResults (db.rows.length + 1) db [] 0
        (.ok ⟨acc, scanned, acc.length⟩, restorePos originalPosition db)

/-- The scan loop of `CountByExpression`. -/
def countExprLoop (pred : Int → Row → Bool) : Nat → DB → Nat → Nat × DB
  | 0, db, count => (count, db)
  | fuel + 1, db, count =>
      if EOF db then (count, db)
      else
        let count := if pred (Position db) (currentRow db) then count + 1 else count
        match Next db with
        | (.error _, db) => (count, db)
        | (.ok _, db) => countExprLoop pred fuel db count

/-- `Vulpo.CountByExpression`. -/
def CountByExpression (db : DB) (pred : Int → Row → Bool) : Except Err Int × DB :=
  if !Active db then (.error (.msg "database not open"), db)
  else
    let originalPosition := Position db
    match First db with
    | (.error _, db) =>
        (.error (.msg "failed to go to first record"), restorePos originalPosition db)
    | (.ok _, db) =>
        let (count, db) := countExprLoop pred (db.rows.length + 1) db 0
        (.ok (count : Int), restorePos originalPosition db)

/-- The scan loop of `ForEachExpressionMatch`: the callback receives
the matched row's reader snapshot and may abort the walk with an
error. -/
def forEachExprLoop (pred : Int → Row → Bool) (cb : Row → Except Err Unit) :
    Nat → DB → Except Err Unit × DB
  | 0, db => (.ok (), db)
  | fuel + 1, db =>
      if EOF db then (.ok (), db)
      else
        match (if pred (Position db) (currentRow db) then cb (currentRow db)
               else .ok ()) with
        | .error e => (.error e, db)
        | .ok _ =>
            match Next db with
            | (.error _, db) => (.ok (), db)
            | (.ok _, db) => forEachExprLoop pred cb fuel db

/-- `Vulpo.ForEachExpressionMatch`. -/
def ForEachExpressionMatch (db : DB) (pred : Int → Row → Bool)
    (cb : Row → Except Err Unit) : Except Err Unit × DB :=
  if !Active db then (.error (.msg "database not open"), db)
  else
    let originalPosition := Position db
    match First db with
    | (.error _, db) =>
        (.error (.msg "failed to go to first record"), restorePos originalPosition db)
    | (.ok _, db) =>
        let (res, db) := forEachExprLoop pred cb (db.rows.length + 1) db
        (res, restorePos originalPosition db)

/-! ## Regex search engine (`unnamed/part_006`)

Go's `regexp` package is external; a compiled pattern is modelled as
its `FindAllStringIndex` behaviour, a function from the field text to
the list of matched byte spans.  Pattern compilation is assumed to
succeed (the claims quantify over valid patterns).  The Go identifiers
`isSimplePrefix`, `extractPrefix` and `performIndexPrefixSearch` are
rendered here with `Pfx` in place of the full word. -/

/-- `RegexSearchOptions` of `unnamed/part_006`. -/
structure RegexSearchOptionsM where
  caseInsensitive : Bool := false
  maxResults : Int := 0
  useIndex : Bool := true
  indexField : String := ""
deriving Repr, DecidableEq

/-- `RegexMatch` of `unnamed/part_006`: record number, the field value
that matched, and the matched byte spans. -/
structure RegexMatchM where
  recordNumber : Int
  fieldValue : String
  spans : List (Nat × Nat)
deriving Repr, DecidableEq

/-- `RegexSearchResult` of `unnamed/part_006`. -/
structure RegexSearchResultM where
  pattern : String
  matchList : List RegexMatchM
  totalScanned : Nat
  totalMatched : Nat
deriving Repr, DecidableEq

/-- The regex metacharacters tested by `isSimplePrefix` and
`extractPrefix` in `unnamed/part_006`. -/
def isMeta (c : Char) : Bool :=
  c == '.' || c == '*' || c == '+' || c == '?' || c == '[' || c == ']' ||
  c == '(' || c == ')' || c == '\x7b' || c == '\x7d' || c == '|' ||
  c == '\\' || c == '$'

/-- The character scan of `isSimplePrefix` (Go `isSimplePrefix`):
walking the pattern after `^`, a metacharacter at index 0 disqualifies,
a metacharacter later confirms, and the scan gives up (confirming)
beyond index 10 or at the end. -/
def isSimplePfxAux : Nat → List Char → Bool
  | _, [] => true
  | i, c :: rest =>
      if i > 10 then true
      else if isMeta c then decide (i > 0)
      else isSimplePfxAux (i + 1) rest

/-- Go `isSimplePrefix` of `unnamed/part_006`. -/
def isSimplePfx (pattern : String) : Bool :=
  if pattern.length < 2 || pattern.data.head? ≠ some '^' then false
  else isSimplePfxAux 0 pattern.data.tail

/-- Go `extractPrefix` of `unnamed/part_006`: the literal run after
`^`, up to the first metacharacter. -/
def extractPfx (pattern : String) : String :=
  if pattern.length < 2 || pattern.data.head? ≠ some '^' then ""
  else String.mk (pattern.data.tail.takeWhile (fun c => !isMeta c))

/-- `findTagForField` of `unnamed/part_006`: first an exact name match
(or `fieldName + "_IDX"`), then any longer tag name that starts or ends
with the field name. -/
def findTagForField (db : DB) (fieldName : String) : Option GoTag :=
  match db.tagNames.find? (fun nm => nm == fieldName || nm == fieldName ++ "_IDX") with
  | some nm => some ⟨nm, true⟩
  | none =>
      match db.tagNames.find? (fun nm =>
          nm.length > fieldName.length
          && (nm.data.take fieldName.length == fieldName.data
              || nm.data.drop (nm.length - fieldName.length) == fieldName.data)) with
      | some nm => some ⟨nm, true⟩
      | none => none

/-- The scan loop of `performIndexPrefixSearch`: walk forward from the
seek landing point while the trimmed field value still carries the
literal prefix, applying the compiled regex to each candidate. -/
def indexPfxLoop (pfx : String) (compiled : String → List (Nat × Nat))
    (maxResults : Int) :
    Nat → DB → List RegexMatchM → Nat → List RegexMatchM × Nat × DB
  | 0, db, acc, scanned => (acc, scanned, db)
  | fuel + 1, db, acc, scanned =>
      if !(!EOF db && (maxResults == 0 || (acc.length : Int) < maxResults)) then
        (acc, scanned, db)
      else
        let scanned := scanned + 1
        let fieldValue := goTrimSpace (currentRow db).value
        if fieldValue.length < pfx.length
            || fieldValue.data.take pfx.length ≠ pfx.data then
          (acc, scanned, db)
        else
          let spans := compiled fieldValue
          let acc :=
            if spans.length > 0 then acc ++ [⟨Position db, fieldValue, spans⟩]
            else acc
          match Next db with
          | (.error _, db) => (acc, scanned, db)
          | (.ok _, db) => indexPfxLoop pfx compiled maxResults fuel db acc scanned

/-- Go `performIndexPrefixSearch` of `unnamed/part_006`: find a tag
for the field, seek to the literal prefix and scan the prefix range;
returns `false` (optimization unavailable) when no tag is found or the
tag cannot be bound, and restores position and ordering otherwise. -/
def performIndexPfxSearch (db : DB) (fieldName pfx : String)
    (compiled : String → List (Nat × Nat)) (options : RegexSearchOptionsM)
    (result : RegexSearchResultM) : Bool × RegexSearchResultM × DB :=
  match findTagForField db fieldName with
  | none => (false, result, db)
  | some tag =>
      let originalPosition := Position db
      let originalTag := SelectedTag db
      match SelectTag db (some tag) with
      | (.error _, db) => (false, result, db)
      | (.ok _, db) =>
          match Seek db pfx with
          | (.error _, db) => (false, result, restoreState originalTag originalPosition db)
          | (.ok seekResult, db) =>
              if !seekResult.IsPositioned then
                (true, result, restoreState originalTag originalPosition db)
              else
                let (acc, scanned, db) :=
                  indexPfxLoop pfx compiled options.maxResults (db.rows.length + 1)
                    db result.matchList result.totalScanned
                (true, { result with matchList := acc, totalScanned := scanned },
                 restoreState originalTag originalPosition db)

/-- The scan loop of `performFullRegexScan`. -/
def fullRegexLoop (compiled : String → List (Nat × Nat)) (maxResults : Int) :
    Nat → DB → List RegexMatchM → Nat → List RegexMatchM × Nat × DB
  | 0, db, acc, scanned => (acc, scanned, db)
  | fuel + 1, db, acc, scanned =>
      if !(!EOF db && (maxResults == 0 || (acc.length : Int) < maxResults)) then
        (acc, scanned, db)
      else
        let scanned := scanned + 1
        let fieldValue := goTrimSpace (currentRow db).value
        let spans := compiled fieldValue
        let acc :=
          if spans.length > 0 then acc ++ [⟨Position db, fieldValue, spans⟩]
          else acc
        match Next db with
        | (.error _, db) => (acc, scanned, db)
        | (.ok _, db) => fullRegexLoop compiled maxResults fuel db acc scanned

/-- Go `performFullRegexScan` of `unnamed/part_006`: a full walk under
the currently selected ordering, restoring the saved position on
exit. -/
def performFullRegexScan (db : DB) (compiled : String → List (Nat × Nat))
    (options : RegexSearchOptionsM) (result : RegexSearchResultM) :
    Except Err RegexSearchResultM × DB :=
  let originalPosition := Position db
  match First db with
  | (.error e, db) => (.error e, restorePos originalPosition db)
  | (.ok _, db) =>
      let (acc, scanned, db) :=
        fullRegexLoop compiled options.maxResults (db.rows.length + 1)
          db result.matchList result.totalScanned
      (.ok { result with matchList := acc, totalScanned := scanned },
       restorePos originalPosition db)

/-- Go `tryIndexOptimization` of `unnamed/part_006`: only anchored
literal-prefix patterns without case folding are optimized. -/
def tryIndexOptimization (db : DB) (fieldName pattern : String)
    (compiled : String → List (Nat × Nat)) (options : RegexSearchOptionsM)
    (result : RegexSearchResultM) : Bool × RegexSearchResultM × DB :=
  if isSimplePfx pattern && !options.caseInsensitive then
    let pfx := extractPfx pattern
    if pfx.length > 0 then
      performIndexPfxSearch db fieldName pfx compiled options result
    else (false, result, db)
  else (false, result, db)

/-- `Vulpo.RegexSearch` of `unnamed/part_006`.  `compiled` is the
`FindAllStringIndex` behaviour of the compiled pattern (Go `regexp` is
external to the repository); the model's table carries one character
column, so the field lookup only checks the (case-insensitive) name. -/
def RegexSearch (db : DB) (fieldName pattern : String)
    (compiled : String → List (Nat × Nat)) (options : RegexSearchOptionsM) :
    Except Err RegexSearchResultM × DB :=
  if !Active db then (.error (.msg "database not open"), db)
  else if goToUpper fieldName ≠ goToUpper db.fieldName then
    (.error (.msg "field not found"), db)
  else
    let result : RegexSearchResultM := ⟨pattern, [], 0, 0⟩
    let (optimized, result, db) :=
      if options.useIndex then
        tryIndexOptimization db fieldName pattern compiled options result
      else (false, result, db)
    if optimized then
      (.ok { result with totalMatched := result.matchList.length }, db)
    else
      match performFullRegexScan db compiled options result with
      | (.error e, db) => (.error e, db)
      | (.ok result, db) =>
          (.ok { result with totalMatched := result.matchList.length }, db)

/-! ## Concrete instances used by the theorems -/

/-- Result-capping as the search loop applies it: a positive
`MaxResults` truncates, any other value means unlimited. -/
def capList (maxResults : Int) (l : List α) : List α :=
  if maxResults > 0 then l.take maxResults.toNat else l

/-- `FindAllStringIndex` behaviour of the compiled Go regex `^A`
(modelled from Go `regexp` semantics: without multiline mode `^`
matches only at the start of the text, so there is at most one match,
the byte span `(0, 1)` when the text starts with `A`). -/
def caretA (s : String) : List (Nat × Nat) :=
  match s.data with
  | 'A' :: _ => [(0, 1)]
  | _ => []

/-- A two-row table whose character column NAME holds raw `" A"`
(record 1, leading space) and `"A"` (record 2), with an index tag
named after the column; physical ordering selected, cursor on
record 1. -/
def c1db : DB :=
  ⟨true, "NAME", [⟨" A", false⟩, ⟨"A", false⟩], ["NAME"], none, .pos 1⟩

/-- A one-row open table with the cursor at BOF. -/
def bofDB : DB :=
  ⟨true, "NAME", [⟨"x", false⟩], [], none, .bof⟩

/-- A two-row table whose tag ordering (`"a"` before `"b"`) reverses
physical order, with that tag selected and the cursor on record 1. -/
def revDB : DB :=
  ⟨true, "NAME", [⟨"b", false⟩, ⟨"a", false⟩], ["NAME"], some "NAME", .pos 1⟩

/-- A three-row open table, record 2 flagged deleted, physical
ordering, cursor on record 2: the witness table. -/
def wdb : DB :=
  ⟨true, "NAME", [⟨"x", false⟩, ⟨"y", true⟩, ⟨"z", false⟩], ["NAME"], none, .pos 2⟩

/-- A closed table handle. -/
def closedDB : DB :=
  ⟨false, "NAME", [⟨"x", true⟩], [], none, .pos 1⟩

/-! ## Lemmas about the string helpers -/

theorem trimChars_eq_rdropWhile (l : List Char) :
    trimChars l = (l.dropWhile isSpaceChar).rdropWhile isSpaceChar := rfl

theorem trimChars_idem (l : List Char) :
    trimChars (trimChars l) = trimChars l := by
  rw [trimChars_eq_rdropWhile, trimChars_eq_rdropWhile]
  have hdrop :
      ((l.dropWhile isSpaceChar).rdropWhile isSpaceChar).dropWhile isSpaceChar
        = (l.dropWhile isSpaceChar).rdropWhile isSpaceChar := by
    rcases hB : (l.dropWhile isSpaceChar).rdropWhile isSpaceChar with _ | ⟨b, t⟩
    · rfl
    · rw [List.dropWhile_cons]
      obtain ⟨r, hr⟩ := List.rdropWhile_prefix isSpaceChar (l.dropWhile isSpaceChar)
      have hA : l.dropWhile isSpaceChar = b :: (t ++ r) := by rw [← hr, hB]; simp
      have hne : l.dropWhile isSpaceChar ≠ [] := by simp [hA]
      have hb := List.head_dropWhile_not isSpaceChar l hne
      have hhead : (l.dropWhile isSpaceChar).head hne = b := by simp [hA]
      rw [hhead] at hb
      simp [hb]
  rw [hdrop, List.rdropWhile_idempotent]

theorem goTrimSpace_idem (s : String) :
    goTrimSpace (goTrimSpace s) = goTrimSpace s :=
  congrArg String.mk (trimChars_idem s.data)

/-! ## Claims C6 and C10: Character-field conversions -/

theorem StringField.AsInt_eq (stored : String) :
    StringField.AsInt true stored =
      (if goTrimSpace stored = "" then .ok 0
       else match goAtoi (goTrimSpace stored) with
         | some v => .ok v
         | none => .error (.conv "character" "integer")) := by
  unfold StringField.AsInt StringField.AsString
  simp [goTrimSpace_idem, beq_iff_eq]

theorem StringField.AsFloat_eq (stored : String) :
    StringField.AsFloat true stored =
      (if goTrimSpace stored = "" then .ok 0
       else match goParseFloat (goTrimSpace stored) with
         | some v => .ok v
         | none => .error (.conv "character" "float")) := by
  unfold StringField.AsFloat StringField.AsString
  simp [goTrimSpace_idem, beq_iff_eq]

theorem StringField.AsBool_eq (stored : String) :
    StringField.AsBool true stored =
      (if goToUpper (goTrimSpace stored) = "T" ∨ goToUpper (goTrimSpace stored) = "TRUE"
          ∨ goToUpper (goTrimSpace stored) = "Y" ∨ goToUpper (goTrimSpace stored) = "YES"
          ∨ goToUpper (goTrimSpace stored) = "1" then .ok true
       else if goToUpper (goTrimSpace stored) = "F" ∨ goToUpper (goTrimSpace stored) = "FALSE"
          ∨ goToUpper (goTrimSpace stored) = "N" ∨ goToUpper (goTrimSpace stored) = "NO"
          ∨ goToUpper (goTrimSpace stored) = "0" ∨ goToUpper (goTrimSpace stored) = "" then
         .ok false
       else .error (.conv "character" "boolean")) := by
  unfold StringField.AsBool StringField.AsString
  simp [goTrimSpace_idem, beq_iff_eq, Bool.or_eq_true, or_assoc]

/-- C6, counterexample: a Character field holding only spaces trims to
the empty string, which `strconv.Atoi` does not parse (`goAtoi` is
`none`), yet `AsInt` and `AsFloat` return 0 with no error — refuting
the claim that the conversions "return a ConversionError when the
trimmed text does not parse". -/
theorem C6_spaces_parse_failure_is_not_an_error :
    goAtoi (goTrimSpace "   ") = none ∧
    StringField.AsInt true "   " = .ok 0 ∧
    StringField.AsFloat true "   " = .ok 0 := by
  decide

/-- C6 (amended): for a Character field read while positioned, the
native value is the stored text trimmed of surrounding whitespace;
`AsInt`/`AsFloat` return 0 with no error on empty trimmed text, the
parsed value when Go `strconv` parses the trimmed text, and a
`ConversionError` when nonempty trimmed text does not parse; and
`AsBool` maps exactly the upper-cased tokens T, TRUE, Y, YES, 1 to
true, the tokens F, FALSE, N, NO, 0 and the empty string to false, and
errors with a `ConversionError` otherwise. -/
theorem C6_character_field_conversions (stored : String) (positioned : Bool)
    (hpos : positioned = true) :
    StringField.AsString positioned stored = .ok (goTrimSpace stored) ∧
    (goTrimSpace stored = "" →
      StringField.AsInt positioned stored = .ok 0 ∧
      StringField.AsFloat positioned stored = .ok 0) ∧
    (∀ v, goAtoi (goTrimSpace stored) = some v →
      StringField.AsInt positioned stored = .ok v) ∧
    (goTrimSpace stored ≠ "" → goAtoi (goTrimSpace stored) = none →
      StringField.AsInt positioned stored = .error (.conv "character" "integer")) ∧
    (∀ v, goParseFloat (goTrimSpace stored) = some v →
      StringField.AsFloat positioned stored = .ok v) ∧
    (goTrimSpace stored ≠ "" → goParseFloat (goTrimSpace stored) = none →
      StringField.AsFloat positioned stored = .error (.conv "character" "float")) ∧
    (goToUpper (goTrimSpace stored) ∈ (["T", "TRUE", "Y", "YES", "1"] : List String) →
      StringField.AsBool positioned stored = .ok true) ∧
    (goToUpper (goTrimSpace stored) ∈ (["F", "FALSE", "N", "NO", "0", ""] : List String) →
      StringField.AsBool positioned stored = .ok false) ∧
    (goToUpper (goTrimSpace stored) ∉ (["T", "TRUE", "Y", "YES", "1"] : List String) →
      goToUpper (goTrimSpace stored) ∉ (["F", "FALSE", "N", "NO", "0", ""] : List String) →
      StringField.AsBool positioned stored = .error (.conv "character" "boolean")) := by
  subst hpos
  have hempty : goAtoi "" = none := rfl
  have hemptyF : goParseFloat "" = none := rfl
  refine ⟨rfl, ?_, ?_, ?_, ?_, ?_, ?_, ?_, ?_⟩
  · intro h
    rw [StringField.AsInt_eq, StringField.AsFloat_eq, if_pos h, if_pos h]
    exact ⟨rfl, rfl⟩
  · intro v hv
    rcases eq_or_ne (goTrimSpace stored) "" with h | h
    · rw [h, hempty] at hv; cases hv
    · rw [StringField.AsInt_eq, if_neg h, hv]
  · intro h hnone
    rw [StringField.AsInt_eq, if_neg h, hnone]
  · intro v hv
    rcases eq_or_ne (goTrimSpace stored) "" with h | h
    · rw [h, hemptyF] at hv; cases hv
    · rw [StringField.AsFloat_eq, if_neg h, hv]
  · intro h hnone
    rw [StringField.AsFloat_eq, if_neg h, hnone]
  · intro h
    simp only [List.mem_cons, List.mem_singleton, List.not_mem_nil, or_false] at h
    rw [StringField.AsBool_eq, if_pos h]
  · intro h
    simp only [List.mem_cons, List.mem_singleton, List.not_mem_nil, or_false] at h
    rw [StringField.AsBool_eq]
    rcases h with h | h | h | h | h | h <;> rw [h] <;> decide
  · intro h1 h2
    simp only [List.mem_cons, List.mem_singleton, List.not_mem_nil, or_false] at h1 h2
    rw [StringField.AsBool_eq, if_neg h1, if_neg h2]

/-- C6, witness: the amended theorem instantiated at the spec's own
scenario, a Character field holding five characters: two spaces, 4, 2,
two spaces. -/
theorem C6_character_field_conversions_witness :
    StringField.AsString true "  42  " = .ok "42" ∧
    StringField.AsInt true "  42  " = .ok 42 ∧
    StringField.AsBool true "  42  " = .error (.conv "character" "boolean") := by
  have h := C6_character_field_conversions "  42  " true rfl
  refine ⟨?_, ?_, ?_⟩
  · rw [h.1]; decide
  · exact h.2.2.1 42 (by decide)
  · exact h.2.2.2.2.2.2.2.2 (by decide) (by decide)

/-- C10: for a Character field read while positioned, empty trimmed
text converts to integer 0 and float 0 with no error, and the numeric
conversions error precisely when the trimmed text is nonempty and
fails to parse under Go `strconv`. -/
theorem C10_character_numeric_empty_is_zero (stored : String) (positioned : Bool)
    (hpos : positioned = true) :
    (goTrimSpace stored = "" →
      StringField.AsInt positioned stored = .ok 0 ∧
      StringField.AsFloat positioned stored = .ok 0) ∧
    ((∃ e, StringField.AsInt positioned stored = .error e) ↔
      goTrimSpace stored ≠ "" ∧ goAtoi (goTrimSpace stored) = none) ∧
    ((∃ e, StringField.AsFloat positioned stored = .error e) ↔
      goTrimSpace stored ≠ "" ∧ goParseFloat (goTrimSpace stored) = none) := by
  subst hpos
  refine ⟨?_, ?_, ?_⟩
  · intro h
    rw [StringField.AsInt_eq, StringField.AsFloat_eq, if_pos h, if_pos h]
    exact ⟨rfl, rfl⟩
  · rw [StringField.AsInt_eq]
    rcases eq_or_ne (goTrimSpace stored) "" with h | h
    · rw [if_pos h]
      simp [h]
    · rw [if_neg h]
      rcases ha : goAtoi (goTrimSpace stored) with _ | v <;> simp [h, ha]
  · rw [StringField.AsFloat_eq]
    rcases eq_or_ne (goTrimSpace stored) "" with h | h
    · rw [if_pos h]
      simp [h]
    · rw [if_neg h]
      rcases ha : goParseFloat (goTrimSpace stored) with _ | v <;> simp [h, ha]

/-- C10, witness: the theorem instantiated at a field holding
three spaces and at one holding the text abc. -/
theorem C10_character_numeric_empty_is_zero_witness :
    StringField.AsInt true "   " = .ok 0 ∧
    (∃ e, StringField.AsInt true "abc" = .error e) := by
  have h1 := C10_character_numeric_empty_is_zero "   " true rfl
  have h2 := C10_character_numeric_empty_is_zero "abc" true rfl
  exact ⟨(h1.1 (by decide)).1, h2.2.1.mpr ⟨by decide, by decide⟩⟩

/-! ## Claim C7: Date-field decoding -/

/-- C7, counterexample: the stored eight bytes 2023+101 are not eight
digits (the fifth byte is a plus sign), yet `AsTime` decodes them
successfully, because `strconv.Atoi` accepts a signed month part —
refuting the claim that a non-blank value decodes only when it is
exactly 8 digits. -/
theorem C7_signed_month_decodes :
    DateField.AsTime true "2023+101" = .ok (some ⟨2023, 1, 1⟩) ∧
    allDigits ("2023+101".data) = false := by
  decide

/-- C7 (amended): for a Date field read while positioned, a blank
stored value (eight spaces) yields the empty string from `AsString`
and the zero time from `AsTime` with no error; a non-blank stored
value is returned verbatim by `AsString`, and `AsTime` succeeds
exactly when the three substrings (bytes 1–4, 5–6, 7–8) each parse
under Go `strconv.Atoi` (an optional sign followed by digits) with the
month in 1–12 and the day in 1–31, and fails with an error
otherwise. -/
theorem C7_date_field_decoding (stored : String) (positioned : Bool)
    (hpos : positioned = true) (hlen : stored.length = 8) :
    (stored = blankDateValue →
      DateField.AsString positioned stored = .ok "" ∧
      DateField.AsTime positioned stored = .ok none) ∧
    (stored ≠ blankDateValue →
      DateField.AsString positioned stored = .ok stored ∧
      ((∃ t, DateField.AsTime positioned stored = .ok (some t)) ↔
        ((∃ y, goAtoi (String.mk (stored.data.take 4)) = some y) ∧
         (∃ m, goAtoi (String.mk ((stored.data.drop 4).take 2)) = some m
            ∧ 1 ≤ m ∧ m ≤ 12) ∧
         (∃ d, goAtoi (String.mk (stored.data.drop 6)) = some d
            ∧ 1 ≤ d ∧ d ≤ 31))) ∧
      (¬ ((∃ y, goAtoi (String.mk (stored.data.take 4)) = some y) ∧
          (∃ m, goAtoi (String.mk ((stored.data.drop 4).take 2)) = some m
             ∧ 1 ≤ m ∧ m ≤ 12) ∧
          (∃ d, goAtoi (String.mk (stored.data.drop 6)) = some d
             ∧ 1 ≤ d ∧ d ≤ 31)) →
        ∃ e, DateField.AsTime positioned stored = .error e)) := by
  subst hpos
  have hne : stored ≠ "" := by
    intro h; rw [h] at hlen; exact absurd hlen (by decide)
  constructor
  · intro hblank
    subst hblank
    exact ⟨by decide, by decide⟩
  · intro hblank
    have hstr : DateField.AsString true stored = .ok stored := by
      unfold DateField.AsString
      rw [if_neg (by simp), if_neg (by simp [hlen]),
        if_neg (by simp [beq_iff_eq, hblank, hne])]
    refine ⟨hstr, ?_, ?_⟩
    · constructor
      · rintro ⟨t, ht⟩
        unfold DateField.AsTime at ht
        rw [hstr] at ht
        simp only [] at ht
        rw [if_neg (not_or.mpr ⟨hne, hblank⟩), if_neg (by simp [hlen])] at ht
        rcases hy : goAtoi (String.mk (stored.data.take 4)) with _ | y <;>
          simp only [hy] at ht
        · cases ht
        rcases hm : goAtoi (String.mk ((stored.data.drop 4).take 2)) with _ | m <;>
          simp only [hm] at ht
        · cases ht
        rcases hd : goAtoi (String.mk (stored.data.drop 6)) with _ | d <;>
          simp only [hd] at ht
        · cases ht
        by_cases hcm : m < 1 ∨ m > 12
        · rw [if_pos hcm] at ht; cases ht
        rw [if_neg hcm] at ht
        by_cases hcd : d < 1 ∨ d > 31
        · rw [if_pos hcd] at ht; cases ht
        push_neg at hcm hcd
        exact ⟨⟨y, rfl⟩, ⟨m, rfl, by omega, by omega⟩, ⟨d, rfl, by omega, by omega⟩⟩
      · rintro ⟨⟨y, hy⟩, ⟨m, hm, hm1, hm2⟩, ⟨d, hd, hd1, hd2⟩⟩
        unfold DateField.AsTime
        rw [hstr]
        simp only []
        rw [if_neg (not_or.mpr ⟨hne, hblank⟩), if_neg (by simp [hlen])]
        simp only [hy, hm, hd]
        rw [if_neg (by omega), if_neg (by omega)]
        exact ⟨_, rfl⟩
    · intro hfail
      unfold DateField.AsTime
      rw [hstr]
      simp only []
      rw [if_neg (not_or.mpr ⟨hne, hblank⟩), if_neg (by simp [hlen])]
      rcases hy : goAtoi (String.mk (stored.data.take 4)) with _ | y <;>
        simp only [hy]
      · exact ⟨_, rfl⟩
      rcases hm : goAtoi (String.mk ((stored.data.drop 4).take 2)) with _ | m <;>
        simp only [hm]
      · exact ⟨_, rfl⟩
      rcases hd : goAtoi (String.mk (stored.data.drop 6)) with _ | d <;>
        simp only [hd]
      · exact ⟨_, rfl⟩
      by_cases hcm : m < 1 ∨ m > 12
      · rw [if_pos hcm]; exact ⟨_, rfl⟩
      by_cases hcd : d < 1 ∨ d > 31
      · rw [if_neg hcm, if_pos hcd]; exact ⟨_, rfl⟩
      push_neg at hcm hcd
      exact absurd ⟨⟨y, hy⟩, ⟨m, hm, by omega, by omega⟩, ⟨d, hd, by omega, by omega⟩⟩
        hfail

/-- C7, witness: the amended theorem instantiated at the blank date
and at the stored value 20231201. -/
theorem C7_date_field_decoding_witness :
    DateField.AsTime true "        " = .ok none ∧
    (∃ t, DateField.AsTime true "20231201" = .ok (some t)) := by
  have h1 := C7_date_field_decoding "        " true rfl (by decide)
  have h2 := C7_date_field_decoding "20231201" true rfl (by decide)
  refine ⟨(h1.1 rfl).2, ((h2.2 (by decide)).2.1).mpr ?_⟩
  exact ⟨⟨2023, by decide⟩, ⟨12, by decide, by decide, by decide⟩,
    ⟨1, by decide, by decide, by decide⟩⟩

/-! ## Cursor-state helper lemmas -/

theorem getD_set_self {α : Type} (l : List α) (i : Nat) (x d : α)
    (h : i < l.length) : (l.set i x).getD i d = x := by
  rw [List.getD_eq_getElem?_getD, List.getElem?_set_self (by simpa using h)]
  rfl

theorem EOF_pos {db : DB} {n : Nat} (hcur : db.cur = .pos n) :
    EOF db = false := by
  unfold EOF
  rcases hA : Active db <;> simp [hcur]

theorem BOF_pos {db : DB} {n : Nat} (hcur : db.cur = .pos n) :
    BOF db = false := by
  unfold BOF
  rcases hA : Active db <;> simp [hcur]

theorem Deleted_pos {db : DB} {n : Nat} (hO : db.isOpen = true)
    (hcur : db.cur = .pos n) : Deleted db = (rowAt db n).deleted := by
  unfold Deleted
  rw [show Active db = true from hO, EOF_pos hcur, BOF_pos hcur]
  unfold d4deleted
  rw [hcur]
  rfl

theorem Position_pos {db : DB} {n : Nat} (hO : db.isOpen = true)
    (hcur : db.cur = .pos n) : Position db = (n : Int) := by
  unfold Position
  rw [show Active db = true from hO, hcur]
  rfl

/-! ## Claims C8 and C9: the soft-delete flag -/

/-- C8: while the table is open and the cursor is positioned at a
record, `Delete` succeeds and `Deleted` reads true immediately
afterwards, and `Recall` succeeds and `Deleted` reads false
immediately afterwards. -/
theorem C8_delete_recall_flip_flag (db : DB) (n : Nat)
    (hOpen : Active db = true) (hcur : db.cur = .pos n)
    (h1 : 1 ≤ n) (h2 : n ≤ db.rows.length) :
    (Delete db).1 = .ok () ∧ Deleted (Delete db).2 = true ∧
    (Recall db).1 = .ok () ∧ Deleted (Recall db).2 = false := by
  have hO : db.isOpen = true := hOpen
  have hlt : n - 1 < db.rows.length := by omega
  have hDel : Delete db = (.ok (), setDeletedFlag db true) := by
    unfold Delete
    rw [hOpen, EOF_pos hcur, BOF_pos hcur]
    rfl
  have hRec : Recall db = (.ok (), setDeletedFlag db false) := by
    unfold Recall
    rw [hOpen, EOF_pos hcur, BOF_pos hcur]
    rfl
  have hflag : ∀ b : Bool, Deleted (setDeletedFlag db b) = b := by
    intro b
    have hset : setDeletedFlag db b =
        { db with rows := db.rows.set (n - 1) { rowAt db n with deleted := b } } := by
      unfold setDeletedFlag
      rw [hcur]
    rw [hset,
      @Deleted_pos { db with rows := db.rows.set (n - 1) { rowAt db n with deleted := b } }
        n hO hcur]
    unfold rowAt
    dsimp only
    rw [getD_set_self _ _ _ _ hlt]
  rw [hDel, hRec]
  exact ⟨rfl, hflag true, rfl, hflag false⟩

/-- C8, witness: on the witness table positioned at record 2,
deleting then recalling flips the flag as claimed. -/
theorem C8_delete_recall_flip_flag_witness :
    (Delete wdb).1 = .ok () ∧ Deleted (Delete wdb).2 = true ∧
    (Recall wdb).1 = .ok () ∧ Deleted (Recall wdb).2 = false :=
  C8_delete_recall_flip_flag wdb 2 (by decide) (by decide) (by decide) (by decide)

/-- C9: on a closed table or with the cursor at BOF or EOF, `Deleted`
reads false with no error, while `Delete` and `Recall` error and leave
the table — in particular every row's deletion flag — unchanged. -/
theorem C9_unpositioned_delete_recall_reject (db : DB)
    (h : Active db = false ∨ db.cur = .bof ∨ db.cur = .eof) :
    Deleted db = false ∧
    (∃ e, (Delete db).1 = .error e) ∧ (Delete db).2 = db ∧
    (∃ e, (Recall db).1 = .error e) ∧ (Recall db).2 = db := by
  unfold Deleted Delete Recall
  rcases h with h | h | h
  · rw [h]
    exact ⟨rfl, ⟨_, rfl⟩, rfl, ⟨_, rfl⟩, rfl⟩
  · rcases hA : Active db
    · exact ⟨rfl, ⟨_, rfl⟩, rfl, ⟨_, rfl⟩, rfl⟩
    · have hB : BOF db = true := by unfold BOF; rw [hA, h]; rfl
      rw [hB, Bool.or_true]
      exact ⟨rfl, ⟨_, rfl⟩, rfl, ⟨_, rfl⟩, rfl⟩
  · rcases hA : Active db
    · exact ⟨rfl, ⟨_, rfl⟩, rfl, ⟨_, rfl⟩, rfl⟩
    · have hE : EOF db = true := by unfold EOF; rw [hA, h]; rfl
      rw [hE, Bool.true_or]
      exact ⟨rfl, ⟨_, rfl⟩, rfl, ⟨_, rfl⟩, rfl⟩

/-- C9, witness: the theorem instantiated at a closed table and the
conjuncts checked at it. -/
theorem C9_unpositioned_delete_recall_reject_witness :
    Deleted closedDB = false ∧
    (∃ e, (Delete closedDB).1 = .error e) ∧ (Delete closedDB).2 = closedDB ∧
    (∃ e, (Recall closedDB).1 = .error e) ∧ (Recall closedDB).2 = closedDB :=
  C9_unpositioned_delete_recall_reject closedDB (Or.inl (by decide))

/-! ## Claim C5: scoped seek restores the selected ordering -/

theorem d4seek_frame (db : DB) (key : String) :
    (d4seek db key).1.selTag = db.selTag ∧ (d4seek db key).1.isOpen = db.isOpen := by
  unfold d4seek
  rcases hsel : db.selTag with _ | t
  · exact ⟨hsel, rfl⟩
  · rcases hfind :
        (tagOrder db).find? (fun r => lexLe key.data ((rawValue db r).data.take key.length))
      with _ | r
    · exact ⟨rfl, rfl⟩
    · dsimp only
      split_ifs <;> exact ⟨rfl, rfl⟩

theorem d4seekDouble_frame (db : DB) (x : ℚ) :
    (d4seekDouble db x).1.selTag = db.selTag ∧ (d4seekDouble db x).1.isOpen = db.isOpen := by
  unfold d4seekDouble
  rcases hsel : db.selTag with _ | t
  · exact ⟨hsel, rfl⟩
  · exact ⟨rfl, rfl⟩

theorem SelectTag_back (db : DB) (orig : Option String) (hO : db.isOpen = true) :
    (SelectTag db (orig.map (fun nm => (⟨nm, true⟩ : GoTag)))).2.selTag = orig := by
  unfold SelectTag
  rw [show Active db = true from hO]
  rcases orig with _ | nm
  · rfl
  · rfl

/-- C5: for an open table and a valid tag handle, the scoped seeks
(`SeekWithTag`, `SeekDoubleWithTag`) leave the selected ordering
exactly as it was before the call, whatever the seek classifies. -/
theorem C5_seek_with_tag_restores_ordering (db : DB) (tag : GoTag) (key : String)
    (x : ℚ) (hOpen : Active db = true) (hvalid : tag.valid = true) :
    (SeekWithTag db (some tag) key).2.selTag = db.selTag ∧
    (SeekDoubleWithTag db (some tag) x).2.selTag = db.selTag := by
  have hO : db.isOpen = true := hOpen
  have hTagSel : SelectedTag db = db.selTag.map (fun nm => (⟨nm, true⟩ : GoTag)) := by
    unfold SelectedTag
    rw [hOpen]
    rfl
  have hSel1 : SelectTag db (some tag) = (.ok (), { db with selTag := some tag.name }) := by
    unfold SelectTag
    rw [hOpen]
    dsimp only
    rw [hvalid]
    rfl
  constructor
  · unfold SeekWithTag
    rcases hseek : d4seek { db with selTag := some tag.name } key with ⟨db2, code⟩
    have h2 := d4seek_frame { db with selTag := some tag.name } key
    rw [hseek] at h2
    dsimp only at h2
    have h2open : db2.isOpen = true := by rw [h2.2]; exact hO
    simp only [hO] at hseek
    unfold Seek SelectTag SelectedTag
    rcases hsel : db.selTag with _ | nm <;>
      simp [hOpen, hvalid, hO, hseek, h2open, hsel, Active]
  · unfold SeekDoubleWithTag
    rcases hseek : d4seekDouble { db with selTag := some tag.name } x with ⟨db2, code⟩
    have h2 := d4seekDouble_frame { db with selTag := some tag.name } x
    rw [hseek] at h2
    dsimp only at h2
    have h2open : db2.isOpen = true := by rw [h2.2]; exact hO
    simp only [hO] at hseek
    unfold SeekDouble SelectTag SelectedTag
    rcases hsel : db.selTag with _ | nm <;>
      simp [hOpen, hvalid, hO, hseek, h2open, hsel, Active]

/-- C5, witness: the theorem instantiated on the witness table with
its NAME tag. -/
theorem C5_seek_with_tag_restores_ordering_witness :
    (SeekWithTag wdb (some ⟨"NAME", true⟩) "y").2.selTag = wdb.selTag ∧
    (SeekDoubleWithTag wdb (some ⟨"NAME", true⟩) 2).2.selTag = wdb.selTag :=
  C5_seek_with_tag_restores_ordering wdb ⟨"NAME", true⟩ "y" 2 (by decide) (by decide)

/-! ## Traversal-order lemmas -/

theorem if_not_true {α : Sort u} (a b : α) : (if (!true) = true then a else b) = b := rfl

theorem order_cursorIrrel (db : DB) (c : Cursor) :
    order { db with cur := c } = order db := rfl

theorem rowAt_cursorIrrel (db : DB) (c : Cursor) (n : Nat) :
    rowAt { db with cur := c } n = rowAt db n := rfl

theorem physOrder_nodup (db : DB) : (physOrder db).Nodup :=
  List.nodup_range' 1 db.rows.length

theorem insertOrdered_perm (key : Nat → List Char) (r : Nat) (l : List Nat) :
    (insertOrdered key r l).Perm (r :: l) := by
  induction l with
  | nil => exact List.Perm.refl _
  | cons x xs ih =>
    unfold insertOrdered
    split_ifs
    · exact (ih.cons x).trans (List.Perm.swap r x xs)
    · exact List.Perm.refl _

theorem foldl_insertOrdered_perm (key : Nat → List Char) :
    ∀ (l acc : List Nat),
      (l.foldl (fun acc r => insertOrdered key r acc) acc).Perm (l ++ acc) := by
  intro l
  induction l with
  | nil => intro acc; simp
  | cons r t ih =>
    intro acc
    show (t.foldl (fun acc r => insertOrdered key r acc) (insertOrdered key r acc)).Perm
        (r :: (t ++ acc))
    exact (ih (insertOrdered key r acc)).trans
      ((List.Perm.append_left t (insertOrdered_perm key r acc)).trans
        List.perm_middle)

theorem tagOrder_perm (db : DB) : (tagOrder db).Perm (physOrder db) := by
  unfold tagOrder
  simpa using foldl_insertOrdered_perm (fun n => (rawValue db n).data) (physOrder db) []

theorem order_perm_phys (db : DB) : (order db).Perm (physOrder db) := by
  unfold order
  rcases hsel : db.selTag with _ | t
  · exact List.Perm.refl _
  · exact tagOrder_perm db

theorem order_nodup (db : DB) : (order db).Nodup :=
  (order_perm_phys db).symm.nodup (physOrder_nodup db)

theorem mem_order_bounds {db : DB} {r : Nat} (h : r ∈ order db) :
    1 ≤ r ∧ r ≤ db.rows.length := by
  have h2 : r ∈ physOrder db := (order_perm_phys db).mem_iff.mp h
  unfold physOrder at h2
  rw [List.mem_range'_1] at h2
  omega

theorem nextInOrder_eq (n : Nat) :
    ∀ (t s : List Nat), (t ++ n :: s).Nodup → nextInOrder (t ++ n :: s) n = s.head? := by
  intro t
  induction t with
  | nil =>
    intro s _
    unfold nextInOrder
    simp
  | cons a t ih =>
    intro s h
    rw [List.cons_append, List.nodup_cons] at h
    have ha : a ≠ n := by
      intro hEq
      exact h.1 (by rw [hEq]; exact List.mem_append_right t (List.mem_cons_self n s))
    show nextInOrder (a :: (t ++ n :: s)) n = s.head?
    unfold nextInOrder
    rw [if_neg ha]
    exact ih s h.2

/-! ## Navigation lemmas -/

theorem SelectTag_none {db : DB} (hO : db.isOpen = true) :
    SelectTag db none = (.ok (), { db with selTag := none }) := by
  unfold SelectTag
  rw [show Active db = true from hO, if_not_true]

theorem First_eq {db : DB} (hO : db.isOpen = true) :
    First db =
      (match order db with
       | [] => (.error (.msg "failed to go to first record"), { db with cur := .eof })
       | r :: _ => (.ok (), { db with cur := .pos r })) := by
  unfold First d4top
  rw [show Active db = true from hO, if_not_true]
  rcases hord : order db with _ | ⟨r, rest⟩ <;> rfl

theorem Next_pos {db : DB} {n : Nat} (hO : db.isOpen = true) (hcur : db.cur = .pos n)
    {t s : List Nat} (hord : order db = t ++ n :: s) (hnd : (order db).Nodup) :
    Next db =
      (match s.head? with
       | some m => (.ok (), { db with cur := .pos m })
       | none => (.error (.msg "failed to move to next record"),
           { db with cur := .eof })) := by
  have hnext : nextInOrder (order db) n = s.head? := by
    rw [hord]
    exact nextInOrder_eq n t s (hord ▸ hnd)
  unfold Next d4skip1
  rw [show Active db = true from hO, if_not_true, hcur]
  simp only []
  rw [hnext]
  rcases hh : s.head? with _ | m <;> rfl

theorem Goto_pos {db : DB} {n : Nat} (hO : db.isOpen = true) (h1 : 1 ≤ n)
    (h2 : n ≤ db.rows.length) :
    Goto db (n : Int) = (.ok (), { db with cur := .pos n }) := by
  unfold Goto d4go
  rw [show Active db = true from hO, if_not_true,
    if_neg (by omega : ¬ ((n : Int) ≤ 0)),
    if_pos (⟨by omega, by omega⟩ : 1 ≤ (n : Int) ∧ (n : Int) ≤ (db.rows.length : Int))]
  simp only [Int.toNat_ofNat]
  rfl

/-! ## Frame predicates for the sweep loops -/

/-- The parts of the table state a scan may not change: everything but
the cursor (and, for the length component, the rows' identity). -/
def sameFrame (a b : DB) : Prop :=
  b.isOpen = a.isOpen ∧ b.fieldName = a.fieldName ∧ b.rows = a.rows ∧
  b.tagNames = a.tagNames ∧ b.selTag = a.selTag

/-- The weaker frame preserved by the flag-mutating sweep. -/
def lenFrame (a b : DB) : Prop :=
  b.isOpen = a.isOpen ∧ b.selTag = a.selTag ∧ b.rows.length = a.rows.length

theorem sameFrame_refl (a : DB) : sameFrame a a := ⟨rfl, rfl, rfl, rfl, rfl⟩

theorem sameFrame_trans {a b c : DB} (h1 : sameFrame a b) (h2 : sameFrame b c) :
    sameFrame a c :=
  ⟨h2.1.trans h1.1, h2.2.1.trans h1.2.1, h2.2.2.1.trans h1.2.2.1,
   h2.2.2.2.1.trans h1.2.2.2.1, h2.2.2.2.2.trans h1.2.2.2.2⟩

theorem sameFrame_lenFrame {a b : DB} (h : sameFrame a b) : lenFrame a b :=
  ⟨h.1, h.2.2.2.2, by rw [h.2.2.1]⟩

theorem lenFrame_refl (a : DB) : lenFrame a a := ⟨rfl, rfl, rfl⟩

theorem lenFrame_trans {a b c : DB} (h1 : lenFrame a b) (h2 : lenFrame b c) :
    lenFrame a c :=
  ⟨h2.1.trans h1.1, h2.2.1.trans h1.2.1, h2.2.2.trans h1.2.2⟩

theorem sameFrame_setCur (a : DB) (c : Cursor) : sameFrame a { a with cur := c } :=
  ⟨rfl, rfl, rfl, rfl, rfl⟩

theorem d4top_sameFrame (db : DB) : sameFrame db (d4top db).1 := by
  unfold d4top
  rcases hord : order db with _ | ⟨r, rest⟩
  · exact sameFrame_setCur db _
  · exact sameFrame_setCur db _

theorem d4skip1_sameFrame (db : DB) : sameFrame db (d4skip1 db).1 := by
  unfold d4skip1
  rcases hcur : db.cur with _ | _ | n <;> simp only []
  · exact d4top_sameFrame db
  · exact sameFrame_setCur db _
  · rcases hnext : nextInOrder (order db) n with _ | m <;> simp only [hnext]
    · exact sameFrame_setCur db _
    · exact sameFrame_setCur db _

theorem Next_sameFrame (db : DB) : sameFrame db (Next db).2 := by
  unfold Next
  rcases hA : Active db
  · exact sameFrame_refl db
  · rw [if_not_true]
    rcases hs : d4skip1 db with ⟨db2, code⟩
    have h := d4skip1_sameFrame db
    rw [hs] at h
    simp only [hs]
    split_ifs <;> exact h

theorem setDeletedFlag_lenFrame (db : DB) (b : Bool) :
    lenFrame db (setDeletedFlag db b) := by
  unfold setDeletedFlag
  rcases hcur : db.cur with _ | _ | n
  · exact lenFrame_refl db
  · exact lenFrame_refl db
  · exact ⟨rfl, rfl, by simp⟩

/-- Rebuild a table state from componentwise equalities. -/
theorem DB.ext' {a b : DB} (h1 : a.isOpen = b.isOpen) (h2 : a.fieldName = b.fieldName)
    (h3 : a.rows = b.rows) (h4 : a.tagNames = b.tagNames) (h5 : a.selTag = b.selTag)
    (h6 : a.cur = b.cur) : a = b := by
  cases a
  cases b
  simp only [] at h1 h2 h3 h4 h5 h6
  subst h1 h2 h3 h4 h5 h6
  rfl

/-! ## Restore lemmas -/

theorem restoreState_spec (db0 db2 : DB) (n : Nat)
    (h2open : db2.isOpen = true) (hlen : db2.rows.length = db0.rows.length)
    (h0open : db0.isOpen = true) (hn1 : 1 ≤ n) (hn2 : n ≤ db0.rows.length) :
    restoreState (SelectedTag db0) ((n : Nat) : Int) db2 =
      { db2 with selTag := db0.selTag, cur := .pos n } := by
  unfold restoreState
  have hsel : (SelectTag db2 (SelectedTag db0)).2 = { db2 with selTag := db0.selTag } := by
    unfold SelectTag SelectedTag
    rw [show Active db0 = true from h0open, show Active db2 = true from h2open,
      if_not_true, if_not_true]
    rcases hsel0 : db0.selTag with _ | nm
    · rfl
    · rfl
  rw [hsel, if_pos (by omega : ((n : Nat) : Int) > 0)]
  rw [@Goto_pos { db2 with selTag := db0.selTag } n h2open hn1 (by
    show n ≤ db2.rows.length
    omega)]

theorem restorePos_spec (db2 : DB) (n : Nat) (h2open : db2.isOpen = true)
    (hn1 : 1 ≤ n) (hn2 : n ≤ db2.rows.length) :
    restorePos ((n : Nat) : Int) db2 = { db2 with cur := .pos n } := by
  unfold restorePos
  rw [if_pos (by omega : ((n : Nat) : Int) > 0), Goto_pos h2open hn1 hn2]

/-! ## Frame lemmas for the sweep loops -/

theorem if_bool_false {α : Sort u} (a b : α) : (if false = true then a else b) = b := rfl

theorem if_bool_true {α : Sort u} (a b : α) : (if true = true then a else b) = a := rfl

theorem countDeletedLoop_sameFrame :
    ∀ (fuel : Nat) (db : DB) (c : Nat), sameFrame db (countDeletedLoop fuel db c).2 := by
  intro fuel
  induction fuel with
  | zero => intro db c; exact sameFrame_refl db
  | succ f ih =>
    intro db c
    unfold countDeletedLoop
    rcases hE : EOF db
    · rw [if_bool_false]
      rcases hnx : Next db with ⟨e, db2⟩
      have hN := Next_sameFrame db
      rw [hnx] at hN
      rcases e with err | u <;> simp only [hnx]
      · exact hN
      · exact sameFrame_trans hN (ih db2 _)
    · rw [if_bool_true]
      exact sameFrame_refl db

theorem countActiveLoop_sameFrame :
    ∀ (fuel : Nat) (db : DB) (c : Nat), sameFrame db (countActiveLoop fuel db c).2 := by
  intro fuel
  induction fuel with
  | zero => intro db c; exact sameFrame_refl db
  | succ f ih =>
    intro db c
    unfold countActiveLoop
    rcases hE : EOF db
    · rw [if_bool_false]
      rcases hnx : Next db with ⟨e, db2⟩
      have hN := Next_sameFrame db
      rw [hnx] at hN
      rcases e with err | u <;> simp only [hnx]
      · exact hN
      · exact sameFrame_trans hN (ih db2 _)
    · rw [if_bool_true]
      exact sameFrame_refl db

theorem listDeletedLoop_sameFrame :
    ∀ (fuel : Nat) (db : DB) (acc : List DeletedRecordInfo),
      sameFrame db (listDeletedLoop fuel db acc).2 := by
  intro fuel
  induction fuel with
  | zero => intro db acc; exact sameFrame_refl db
  | succ f ih =>
    intro db acc
    unfold listDeletedLoop
    rcases hE : EOF db
    · rw [if_bool_false]
      rcases hnx : Next db with ⟨e, db2⟩
      have hN := Next_sameFrame db
      rw [hnx] at hN
      rcases e with err | u <;> simp only [hnx]
      · exact hN
      · exact sameFrame_trans hN (ih db2 _)
    · rw [if_bool_true]
      exact sameFrame_refl db

theorem forEachDeletedLoop_sameFrame (cb : Int → Except Err Unit) :
    ∀ (fuel : Nat) (db : DB), sameFrame db (forEachDeletedLoop cb fuel db).2 := by
  intro fuel
  induction fuel with
  | zero => intro db; exact sameFrame_refl db
  | succ f ih =>
    intro db
    unfold forEachDeletedLoop
    rcases hE : EOF db
    · rw [if_bool_false]
      rcases hc : (if Deleted db then cb (Position db) else .ok ()) with e | u <;>
        simp only [hc]
      · exact sameFrame_refl db
      · rcases hnx : Next db with ⟨e, db2⟩
        have hN := Next_sameFrame db
        rw [hnx] at hN
        rcases e with err | u2 <;> simp only [hnx]
        · exact hN
        · exact sameFrame_trans hN (ih db2)
    · rw [if_bool_true]
      exact sameFrame_refl db

theorem recallAllLoop_lenFrame :
    ∀ (fuel : Nat) (db : DB) (c : Nat), lenFrame db (recallAllLoop fuel db c).2 := by
  intro fuel
  induction fuel with
  | zero => intro db c; exact lenFrame_refl db
  | succ f ih =>
    intro db c
    unfold recallAllLoop
    rcases hE : EOF db
    · rw [if_bool_false]
      rcases hD : Deleted db
      · rw [if_neg Bool.false_ne_true]
        dsimp only
        rcases hnx : Next db with ⟨e, db2⟩
        have hN := sameFrame_lenFrame (Next_sameFrame db)
        rw [hnx] at hN
        rcases e with err | u <;> simp only [hnx]
        · exact hN
        · exact lenFrame_trans hN (ih db2 _)
      · rw [if_pos rfl]
        dsimp only
        rcases hnx : Next (setDeletedFlag db false) with ⟨e, db2⟩
        have hset := setDeletedFlag_lenFrame db false
        have hN := sameFrame_lenFrame (Next_sameFrame (setDeletedFlag db false))
        rw [hnx] at hN
        have hcomb := lenFrame_trans hset hN
        rcases e with err | u <;> simp only [hnx]
        · exact hcomb
        · exact lenFrame_trans hcomb (ih db2 _)
    · rw [if_bool_true]
      exact lenFrame_refl db

theorem searchExprLoop_sameFrame (pred : Int → Row → Bool) (maxResults : Int) :
    ∀ (fuel : Nat) (db : DB) (acc : List ExprMatchM) (scanned : Nat),
      sameFrame db (searchExprLoop pred maxResults fuel db acc scanned).2.2 := by
  intro fuel
  induction fuel with
  | zero => intro db acc scanned; exact sameFrame_refl db
  | succ f ih =>
    intro db acc scanned
    unfold searchExprLoop
    rcases hE : EOF db
    · rw [if_bool_false]
      rcases hp : pred (Position db) (currentRow db)
      · rw [if_neg Bool.false_ne_true]
        rcases hnx : Next db with ⟨e, db2⟩
        have hN := Next_sameFrame db
        rw [hnx] at hN
        rcases e with err | u <;> simp only [hnx]
        · exact hN
        · exact sameFrame_trans hN (ih db2 _ _)
      · rw [if_pos rfl]
        dsimp only
        by_cases hstop : maxResults > 0 ∧
            (((acc ++ [(⟨Position db, currentRow db⟩ : ExprMatchM)]).length : Int))
              ≥ maxResults
        · rw [if_pos hstop]
          exact sameFrame_refl db
        · rw [if_neg hstop]
          rcases hnx : Next db with ⟨e, db2⟩
          have hN := Next_sameFrame db
          rw [hnx] at hN
          rcases e with err | u <;> simp only [hnx]
          · exact hN
          · exact sameFrame_trans hN (ih db2 _ _)
    · rw [if_bool_true]
      exact sameFrame_refl db

theorem countExprLoop_sameFrame (pred : Int → Row → Bool) :
    ∀ (fuel : Nat) (db : DB) (c : Nat), sameFrame db (countExprLoop pred fuel db c).2 := by
  intro fuel
  induction fuel with
  | zero => intro db c; exact sameFrame_refl db
  | succ f ih =>
    intro db c
    unfold countExprLoop
    rcases hE : EOF db
    · rw [if_bool_false]
      rcases hnx : Next db with ⟨e, db2⟩
      have hN := Next_sameFrame db
      rw [hnx] at hN
      rcases e with err | u <;> simp only [hnx]
      · exact hN
      · exact sameFrame_trans hN (ih db2 _)
    · rw [if_bool_true]
      exact sameFrame_refl db

theorem restore_after_scan {db db2 : DB} {n : Nat} (hO : db.isOpen = true)
    (hcur : db.cur = .pos n) (h1 : 1 ≤ n) (h2 : n ≤ db.rows.length)
    (hframe : lenFrame { db with selTag := none } db2) :
    (restoreState (SelectedTag db) (Position db) db2).selTag = db.selTag ∧
    (restoreState (SelectedTag db) (Position db) db2).cur = db.cur := by
  have h2open : db2.isOpen = true := by rw [hframe.1]; exact hO
  have hlen : db2.rows.length = db.rows.length := hframe.2.2
  rw [Position_pos hO hcur, restoreState_spec db db2 n h2open hlen hO h1 h2]
  exact ⟨rfl, by rw [hcur]⟩

theorem forEachExprLoop_sameFrame (pred : Int → Row → Bool) (cb : Row → Except Err Unit) :
    ∀ (fuel : Nat) (db : DB), sameFrame db (forEachExprLoop pred cb fuel db).2 := by
  intro fuel
  induction fuel with
  | zero => intro db; exact sameFrame_refl db
  | succ f ih =>
    intro db
    unfold forEachExprLoop
    rcases hE : EOF db
    · rw [if_bool_false]
      rcases hc : (if pred (Position db) (currentRow db) then cb (currentRow db)
          else .ok ()) with e | u <;> simp only [hc]
      · exact sameFrame_refl db
      · rcases hnx : Next db with ⟨e, db2⟩
        have hN := Next_sameFrame db
        rw [hnx] at hN
        rcases e with err | u2 <;> simp only [hnx]
        · exact hN
        · exact sameFrame_trans hN (ih db2)
    · rw [if_bool_true]
      exact sameFrame_refl db

/-! ## Claim C2: aggregate deleted-record scans -/

/-- C2, counterexample: on a one-row open table whose cursor starts at
BOF, `CountDeleted` exits with the cursor at EOF — the saved position
is −1 at BOF, so the deferred restore skips the `Goto`, refuting the
claim that the cursor position is restored for every starting cursor
state. -/
theorem C2_bof_start_not_restored :
    bofDB.cur = Cursor.bof ∧ (CountDeleted bofDB).2.cur = Cursor.eof ∧
    (CountDeleted bofDB).2.cur ≠ bofDB.cur := by
  decide

/-- C2 (amended): each aggregate deleted-record scan (`CountDeleted`,
`CountActive`, `ListDeletedRecords`, `ForEachDeletedRecord`,
`RecallAllDeleted`) forces physical ordering for its sweep and on exit
— including when the callback errors — restores the selected ordering
always, and restores the cursor position whenever the caller was
positioned at a row; a caller at BOF or EOF has no saved record number
and is left where the sweep ends. -/
theorem C2_deleted_scans_restore_when_positioned (db : DB) (n : Nat)
    (cb : Int → Except Err Unit)
    (hOpen : Active db = true) (hcur : db.cur = .pos n)
    (h1 : 1 ≤ n) (h2 : n ≤ db.rows.length) :
    ((CountDeleted db).2.selTag = db.selTag ∧ (CountDeleted db).2.cur = db.cur) ∧
    ((CountActive db).2.selTag = db.selTag ∧ (CountActive db).2.cur = db.cur) ∧
    ((ListDeletedRecords db).2.selTag = db.selTag ∧
      (ListDeletedRecords db).2.cur = db.cur) ∧
    ((ForEachDeletedRecord db cb).2.selTag = db.selTag ∧
      (ForEachDeletedRecord db cb).2.cur = db.cur) ∧
    ((RecallAllDeleted db).2.selTag = db.selTag ∧
      (RecallAllDeleted db).2.cur = db.cur) := by
  have hO : db.isOpen = true := hOpen
  have hO1 : ({ db with selTag := none } : DB).isOpen = true := hO
  obtain ⟨k, hk⟩ : ∃ k, db.rows.length = k + 1 := ⟨db.rows.length - 1, by omega⟩
  have hord : order ({ db with selTag := none } : DB) = 1 :: List.range' 2 k := by
    show List.range' 1 db.rows.length = _
    rw [hk]
    rfl
  have hFirst : First { db with selTag := none } =
      (.ok (), { db with selTag := none, cur := .pos 1 }) := by
    rw [First_eq hO1, hord]
  have hX : sameFrame ({ db with selTag := none } : DB)
      { db with selTag := none, cur := .pos 1 } := ⟨rfl, rfl, rfl, rfl, rfl⟩
  refine ⟨?_, ?_, ?_, ?_, ?_⟩
  · have hCD : (CountDeleted db).2 = restoreState (SelectedTag db) (Position db)
        (countDeletedLoop (db.rows.length + 1)
          { db with selTag := none, cur := .pos 1 } 0).2 := by
      unfold CountDeleted
      rw [show Active db = true from hO, if_not_true, SelectTag_none hO]
      simp only []
      rw [hFirst]
    rw [hCD]
    exact restore_after_scan hO hcur h1 h2
      (sameFrame_lenFrame (sameFrame_trans hX (countDeletedLoop_sameFrame _ _ _)))
  · have hCA : (CountActive db).2 = restoreState (SelectedTag db) (Position db)
        (countActiveLoop (db.rows.length + 1)
          { db with selTag := none, cur := .pos 1 } 0).2 := by
      unfold CountActive
      rw [show Active db = true from hO, if_not_true, SelectTag_none hO]
      simp only []
      rw [hFirst]
    rw [hCA]
    exact restore_after_scan hO hcur h1 h2
      (sameFrame_lenFrame (sameFrame_trans hX (countActiveLoop_sameFrame _ _ _)))
  · have hLD : (ListDeletedRecords db).2 = restoreState (SelectedTag db) (Position db)
        (listDeletedLoop (db.rows.length + 1)
          { db with selTag := none, cur := .pos 1 } []).2 := by
      unfold ListDeletedRecords
      rw [show Active db = true from hO, if_not_true, SelectTag_none hO]
      simp only []
      rw [hFirst]
    rw [hLD]
    exact restore_after_scan hO hcur h1 h2
      (sameFrame_lenFrame (sameFrame_trans hX (listDeletedLoop_sameFrame _ _ _)))
  · have hFE : (ForEachDeletedRecord db cb).2 = restoreState (SelectedTag db) (Position db)
        (forEachDeletedLoop cb (db.rows.length + 1)
          { db with selTag := none, cur := .pos 1 }).2 := by
      unfold ForEachDeletedRecord
      rw [show Active db = true from hO, if_not_true, SelectTag_none hO]
      simp only []
      rw [hFirst]
    rw [hFE]
    exact restore_after_scan hO hcur h1 h2
      (sameFrame_lenFrame (sameFrame_trans hX (forEachDeletedLoop_sameFrame cb _ _)))
  · have hRA : (RecallAllDeleted db).2 = restoreState (SelectedTag db) (Position db)
        (recallAllLoop (db.rows.length + 1)
          { db with selTag := none, cur := .pos 1 } 0).2 := by
      unfold RecallAllDeleted
      rw [show Active db = true from hO, if_not_true, SelectTag_none hO]
      simp only []
      rw [hFirst]
    rw [hRA]
    exact restore_after_scan hO hcur h1 h2
      (lenFrame_trans (sameFrame_lenFrame hX) (recallAllLoop_lenFrame _ _ _))

/-- C2, witness: the amended theorem instantiated on the witness table
positioned at record 2 with an always-failing callback. -/
theorem C2_deleted_scans_restore_when_positioned_witness :
    ((CountDeleted wdb).2.selTag = wdb.selTag ∧ (CountDeleted wdb).2.cur = wdb.cur) ∧
    ((CountActive wdb).2.selTag = wdb.selTag ∧ (CountActive wdb).2.cur = wdb.cur) ∧
    ((ListDeletedRecords wdb).2.selTag = wdb.selTag ∧
      (ListDeletedRecords wdb).2.cur = wdb.cur) ∧
    ((ForEachDeletedRecord wdb (fun _ => .error (.msg "stop"))).2.selTag = wdb.selTag ∧
      (ForEachDeletedRecord wdb (fun _ => .error (.msg "stop"))).2.cur = wdb.cur) ∧
    ((RecallAllDeleted wdb).2.selTag = wdb.selTag ∧
      (RecallAllDeleted wdb).2.cur = wdb.cur) :=
  C2_deleted_scans_restore_when_positioned wdb 2 (fun _ => .error (.msg "stop"))
    (by decide) (by decide) (by decide) (by decide)

/-! ## Claim C3: pack and the deleted/active counts -/

theorem countDeletedLoop_suffix (db : DB) (hO : db.isOpen = true) :
    ∀ (s t : List Nat) (n count fuel : Nat),
      order db = t ++ n :: s → (order db).Nodup → s.length < fuel →
      countDeletedLoop fuel { db with cur := .pos n } count =
        (count + (n :: s).countP (fun r => (rowAt db r).deleted),
         { db with cur := .eof }) := by
  intro s
  induction s with
  | nil =>
    intro t n count fuel hord hnd hfuel
    rcases fuel with _ | f
    · omega
    unfold countDeletedLoop
    rw [show EOF { db with cur := .pos n } = false from EOF_pos rfl, if_bool_false,
      show Deleted { db with cur := .pos n } = (rowAt db n).deleted from
        @Deleted_pos { db with cur := .pos n } n hO rfl,
      @Next_pos { db with cur := .pos n } n hO rfl t [] hord hnd]
    simp only [List.head?_nil]
    rcases hd : (rowAt db n).deleted <;> simp [hd, List.countP_cons]
  | cons m s2 ih =>
    intro t n count fuel hord hnd hfuel
    rcases fuel with _ | f
    · omega
    unfold countDeletedLoop
    rw [show EOF { db with cur := .pos n } = false from EOF_pos rfl, if_bool_false,
      show Deleted { db with cur := .pos n } = (rowAt db n).deleted from
        @Deleted_pos { db with cur := .pos n } n hO rfl,
      @Next_pos { db with cur := .pos n } n hO rfl t (m :: s2) hord hnd]
    simp only [List.head?_cons]
    rw [ih (t ++ [n]) m _ f (by simpa using hord) hnd (by simp at hfuel ⊢; omega)]
    rcases hd : (rowAt db n).deleted <;> simp [hd, List.countP_cons] <;> omega

theorem countActiveLoop_suffix (db : DB) (hO : db.isOpen = true) :
    ∀ (s t : List Nat) (n count fuel : Nat),
      order db = t ++ n :: s → (order db).Nodup → s.length < fuel →
      countActiveLoop fuel { db with cur := .pos n } count =
        (count + (n :: s).countP (fun r => !(rowAt db r).deleted),
         { db with cur := .eof }) := by
  intro s
  induction s with
  | nil =>
    intro t n count fuel hord hnd hfuel
    rcases fuel with _ | f
    · omega
    unfold countActiveLoop
    rw [show EOF { db with cur := .pos n } = false from EOF_pos rfl, if_bool_false,
      show Deleted { db with cur := .pos n } = (rowAt db n).deleted from
        @Deleted_pos { db with cur := .pos n } n hO rfl,
      @Next_pos { db with cur := .pos n } n hO rfl t [] hord hnd]
    simp only [List.head?_nil]
    rcases hd : (rowAt db n).deleted <;> simp [hd, List.countP_cons]
  | cons m s2 ih =>
    intro t n count fuel hord hnd hfuel
    rcases fuel with _ | f
    · omega
    unfold countActiveLoop
    rw [show EOF { db with cur := .pos n } = false from EOF_pos rfl, if_bool_false,
      show Deleted { db with cur := .pos n } = (rowAt db n).deleted from
        @Deleted_pos { db with cur := .pos n } n hO rfl,
      @Next_pos { db with cur := .pos n } n hO rfl t (m :: s2) hord hnd]
    simp only [List.head?_cons]
    rw [ih (t ++ [n]) m _ f (by simpa using hord) hnd (by simp at hfuel ⊢; omega)]
    rcases hd : (rowAt db n).deleted <;> simp [hd, List.countP_cons] <;> omega

theorem countP_range'_getD (p : Row → Bool) (d : Row) :
    ∀ (l pre : List Row),
      (List.range' (pre.length + 1) l.length).countP
          (fun r => p ((pre ++ l).getD (r - 1) d)) = l.countP p := by
  intro l
  induction l with
  | nil => intro pre; rfl
  | cons a l2 ih =>
    intro pre
    show ((pre.length + 1) :: List.range' (pre.length + 2) l2.length).countP _ = _
    rw [List.countP_cons, List.countP_cons]
    have hhead : (pre ++ a :: l2).getD (pre.length + 1 - 1) d = a := by
      rw [show pre.length + 1 - 1 = pre.length from rfl,
        List.getD_append_right pre (a :: l2) d pre.length (le_refl pre.length)]
      simp
    have htail : (List.range' (pre.length + 2) l2.length).countP
        (fun r => p ((pre ++ a :: l2).getD (r - 1) d)) = l2.countP p := by
      have h2 := ih (pre ++ [a])
      simp only [List.length_append, List.length_cons, List.length_nil,
        List.append_assoc, List.singleton_append] at h2
      convert h2 using 2
    rw [hhead, htail]

theorem countP_add_countP_not (l : List Row) (p : Row → Bool) :
    l.countP p + l.countP (fun a => !(p a)) = l.length := by
  induction l with
  | nil => rfl
  | cons a t ih =>
    rcases hp : p a <;> simp [List.countP_cons, hp] <;> omega

theorem countDeleted_val (db : DB) (hO : db.isOpen = true) :
    goIntOf (CountDeleted db).1 = ((db.rows.countP (fun r => r.deleted) : Nat) : Int) := by
  have hOX : ({ db with selTag := none } : DB).isOpen = true := hO
  rcases hk : db.rows.length with _ | k
  · have hord : order ({ db with selTag := none } : DB) = [] := by
      show List.range' 1 db.rows.length = []
      rw [hk]
      rfl
    have hFirst : First { db with selTag := none } =
        (.error (.msg "failed to go to first record"),
         { db with selTag := none, cur := .eof }) := by
      rw [First_eq hOX, hord]
    have hempty : db.rows = [] := List.length_eq_zero.mp hk
    unfold CountDeleted
    rw [show Active db = true from hO, if_not_true, SelectTag_none hO]
    simp only []
    rw [hFirst]
    simp only []
    rw [hempty]
    rfl
  · have hord : order ({ db with selTag := none } : DB) = 1 :: List.range' 2 k := by
      show List.range' 1 db.rows.length = _
      rw [hk]
      rfl
    have hFirst : First { db with selTag := none } =
        (.ok (), { db with selTag := none, cur := .pos 1 }) := by
      rw [First_eq hOX, hord]
    have hloop := countDeletedLoop_suffix { db with selTag := none } hO
      (List.range' 2 k) [] 1 0 (db.rows.length + 1) hord
      (order_nodup { db with selTag := none })
      (by rw [List.length_range']; omega)
    have hbridge := countP_range'_getD (fun r => r.deleted) ⟨"", false⟩ db.rows []
    simp only [List.nil_append] at hbridge
    unfold CountDeleted
    rw [show Active db = true from hO, if_not_true, SelectTag_none hO]
    simp only []
    rw [hFirst]
    simp only []
    rw [hloop]
    show ((0 + (1 :: List.range' 2 k).countP
      (fun r => (rowAt { db with selTag := none } r).deleted) : Nat) : Int) = _
    rw [Nat.zero_add]
    have hre : (1 :: List.range' 2 k).countP
        (fun r => (rowAt { db with selTag := none } r).deleted)
        = db.rows.countP (fun r => r.deleted) := by
      rw [show (1 :: List.range' 2 k) = List.range' 1 (k + 1) from rfl, ← hk]
      exact hbridge
    rw [hre]

theorem countActive_val (db : DB) (hO : db.isOpen = true) :
    goIntOf (CountActive db).1 = ((db.rows.countP (fun r => !r.deleted) : Nat) : Int) := by
  have hOX : ({ db with selTag := none } : DB).isOpen = true := hO
  rcases hk : db.rows.length with _ | k
  · have hord : order ({ db with selTag := none } : DB) = [] := by
      show List.range' 1 db.rows.length = []
      rw [hk]
      rfl
    have hFirst : First { db with selTag := none } =
        (.error (.msg "failed to go to first record"),
         { db with selTag := none, cur := .eof }) := by
      rw [First_eq hOX, hord]
    have hempty : db.rows = [] := List.length_eq_zero.mp hk
    unfold CountActive
    rw [show Active db = true from hO, if_not_true, SelectTag_none hO]
    simp only []
    rw [hFirst]
    simp only []
    rw [hempty]
    rfl
  · have hord : order ({ db with selTag := none } : DB) = 1 :: List.range' 2 k := by
      show List.range' 1 db.rows.length = _
      rw [hk]
      rfl
    have hFirst : First { db with selTag := none } =
        (.ok (), { db with selTag := none, cur := .pos 1 }) := by
      rw [First_eq hOX, hord]
    have hloop := countActiveLoop_suffix { db with selTag := none } hO
      (List.range' 2 k) [] 1 0 (db.rows.length + 1) hord
      (order_nodup { db with selTag := none })
      (by rw [List.length_range']; omega)
    have hbridge := countP_range'_getD (fun r => !r.deleted) ⟨"", false⟩ db.rows []
    simp only [List.nil_append] at hbridge
    unfold CountActive
    rw [show Active db = true from hO, if_not_true, SelectTag_none hO]
    simp only []
    rw [hFirst]
    simp only []
    rw [hloop]
    show ((0 + (1 :: List.range' 2 k).countP
      (fun r => !(rowAt { db with selTag := none } r).deleted) : Nat) : Int) = _
    rw [Nat.zero_add]
    have hre : (1 :: List.range' 2 k).countP
        (fun r => !(rowAt { db with selTag := none } r).deleted)
        = db.rows.countP (fun r => !r.deleted) := by
      rw [show (1 :: List.range' 2 k) = List.range' 1 (k + 1) from rfl, ← hk]
      exact hbridge
    rw [hre]

/-- C3: on an open table, `Pack` succeeds and removes exactly the rows
flagged deleted at the moment of the call; the integers returned by
`CountDeleted` and `CountActive` sum to the total row count before any
pack; and immediately after the pack `CountDeleted` reports 0.
(`d4pack` itself is modelled from the spec, its C implementation being
outside the repository.) -/
theorem C3_pack_removes_exactly_flagged (db : DB) (hOpen : Active db = true) :
    (Pack db).1 = .ok () ∧
    (Pack db).2.rows = db.rows.filter (fun r => !r.deleted) ∧
    goIntOf (CountDeleted db).1 + goIntOf (CountActive db).1 = (db.rows.length : Int) ∧
    goIntOf (CountDeleted (Pack db).2).1 = 0 := by
  have hO : db.isOpen = true := hOpen
  have hPack : Pack db =
      (.ok (), { db with rows := db.rows.filter (fun r => !r.deleted), cur := .eof }) := by
    unfold Pack d4pack
    rw [show Active db = true from hO, if_not_true]
    rfl
  refine ⟨by rw [hPack], by rw [hPack], ?_, ?_⟩
  · rw [countDeleted_val db hO, countActive_val db hO]
    have hsum := countP_add_countP_not db.rows (fun r => r.deleted)
    have : db.rows.countP (fun r => !r.deleted)
        = db.rows.countP (fun a => !((fun r => r.deleted) a)) := rfl
    rw [this]
    omega
  · rw [hPack]
    rw [countDeleted_val
      { db with rows := db.rows.filter (fun r => !r.deleted), cur := .eof } hO]
    have hz : (db.rows.filter (fun r => !r.deleted)).countP (fun r => r.deleted) = 0 := by
      rw [List.countP_eq_zero]
      intro a ha
      have hmem := List.of_mem_filter ha
      simp at hmem ⊢
      exact hmem
    rw [hz]
    rfl

/-- C3, witness: the theorem instantiated on the witness table (three
rows, one flagged). -/
theorem C3_pack_removes_exactly_flagged_witness :
    (Pack wdb).1 = .ok () ∧
    (Pack wdb).2.rows = wdb.rows.filter (fun r => !r.deleted) ∧
    goIntOf (CountDeleted wdb).1 + goIntOf (CountActive wdb).1 = (wdb.rows.length : Int) ∧
    goIntOf (CountDeleted (Pack wdb).2).1 = 0 :=
  C3_pack_removes_exactly_flagged wdb (by decide)

/-! ## Claim C4: predicate (expression) searches -/

theorem capList_nil (m : Int) {α : Type} : capList m ([] : List α) = [] := by
  unfold capList
  split_ifs <;> simp

theorem capList_singleton {α : Type} {maxR : Int} {k : Nat}
    (h : maxR ≤ 0 ∨ (k : Int) < maxR) (x : α) :
    capList (maxR - (k : Int)) [x] = [x] := by
  unfold capList
  split_ifs with hgt
  · rw [List.take_of_length_le (by simp; omega)]
  · rfl

theorem capList_take_one {α : Type} {maxR : Int} {k : Nat} (hpos : maxR > 0)
    (hge : maxR ≤ (k : Int) + 1) (hlt : (k : Int) < maxR) (x : α) (l : List α) :
    capList (maxR - (k : Int)) (x :: l) = [x] := by
  unfold capList
  rw [if_pos (by omega)]
  have h1 : (maxR - (k : Int)).toNat = 1 := by omega
  rw [h1, List.take_succ_cons, List.take_zero]

theorem capList_cons {α : Type} {maxR : Int} {k : Nat}
    (h2 : maxR ≤ 0 ∨ ((k : Int) + 1) < maxR) (x : α) (l : List α) :
    capList (maxR - (k : Int)) (x :: l) = x :: capList (maxR - ((k : Int) + 1)) l := by
  unfold capList
  rcases h2 with h2 | h2
  · rw [if_neg (by omega), if_neg (by omega)]
  · rw [if_pos (by omega), if_pos (by omega)]
    have h1 : (maxR - (k : Int)).toNat = (maxR - ((k : Int) + 1)).toNat + 1 := by omega
    rw [h1, List.take_succ_cons]

theorem searchExprLoop_suffix (db : DB) (hO : db.isOpen = true)
    (pred : Int → Row → Bool) (maxR : Int) :
    ∀ (s t : List Nat) (n : Nat) (acc : List ExprMatchM) (scanned fuel : Nat),
      order db = t ++ n :: s → (order db).Nodup → s.length < fuel →
      (maxR ≤ 0 ∨ (acc.length : Int) < maxR) →
      (searchExprLoop pred maxR fuel { db with cur := .pos n } acc scanned).1 =
        acc ++ capList (maxR - acc.length)
          (((n :: s).filter (fun (r : Nat) => pred (r : Int) (rowAt db r))).map
            (fun (r : Nat) => (⟨(r : Int), rowAt db r⟩ : ExprMatchM))) := by
  intro s
  induction s with
  | nil =>
    intro t n acc scanned fuel hord hnd hfuel hcap
    rcases fuel with _ | f
    · omega
    unfold searchExprLoop
    rw [show EOF { db with cur := .pos n } = false from EOF_pos rfl, if_bool_false,
      show Position { db with cur := .pos n } = (n : Int) from Position_pos hO rfl,
      show currentRow { db with cur := .pos n } = rowAt db n from rfl]
    rcases hp : pred (n : Int) (rowAt db n)
    · rw [if_neg Bool.false_ne_true,
        @Next_pos { db with cur := .pos n } n hO rfl t [] hord hnd]
      simp only [List.head?_nil, List.filter_cons, hp, Bool.false_eq_true, if_false,
        List.filter_nil, List.map_nil, capList_nil, List.append_nil]
    · rw [if_pos rfl]
      dsimp only
      simp only [List.filter_cons, hp, eq_self_iff_true, if_true, List.filter_nil,
        List.map_cons, List.map_nil]
      by_cases hstop : maxR > 0 ∧
          (((acc ++ [(⟨(n : Int), rowAt db n⟩ : ExprMatchM)]).length : Int)) ≥ maxR
      · rw [if_pos hstop]
        have hcap2 : (acc.length : Int) < maxR := by
          rcases hcap with hcap | hcap
          · omega
          · exact hcap
        rw [capList_take_one hstop.1 (by simpa using hstop.2) hcap2]
      · rw [if_neg hstop,
          @Next_pos { db with cur := .pos n } n hO rfl t [] hord hnd]
        simp only [List.head?_nil]
        rw [capList_singleton hcap]
  | cons m s2 ih =>
    intro t n acc scanned fuel hord hnd hfuel hcap
    rcases fuel with _ | f
    · omega
    unfold searchExprLoop
    rw [show EOF { db with cur := .pos n } = false from EOF_pos rfl, if_bool_false,
      show Position { db with cur := .pos n } = (n : Int) from Position_pos hO rfl,
      show currentRow { db with cur := .pos n } = rowAt db n from rfl]
    rcases hp : pred (n : Int) (rowAt db n)
    · rw [if_neg Bool.false_ne_true,
        @Next_pos { db with cur := .pos n } n hO rfl t (m :: s2)
          hord hnd]
      simp only [List.head?_cons]
      rw [ih (t ++ [n]) m acc (scanned + 1) f (by simpa using hord) hnd
        (by simp at hfuel ⊢; omega) hcap]
      simp only [List.filter_cons, hp, Bool.false_eq_true, if_false]
    · rw [if_pos rfl]
      dsimp only
      simp only [List.filter_cons, hp, eq_self_iff_true, if_true, List.map_cons]
      by_cases hstop : maxR > 0 ∧
          (((acc ++ [(⟨(n : Int), rowAt db n⟩ : ExprMatchM)]).length : Int)) ≥ maxR
      · rw [if_pos hstop]
        have hcap2 : (acc.length : Int) < maxR := by
          rcases hcap with hcap | hcap
          · omega
          · exact hcap
        rw [capList_take_one hstop.1 (by simpa using hstop.2) hcap2]
      · rw [if_neg hstop,
          @Next_pos { db with cur := .pos n } n hO rfl t (m :: s2)
            hord hnd]
        simp only [List.head?_cons]
        have hih := ih (t ++ [n]) m
          (acc ++ [(⟨(n : Int), rowAt db n⟩ : ExprMatchM)]) (scanned + 1) f
          (by simpa using hord) hnd (by simp at hfuel ⊢; omega)
          (by simp at hstop ⊢; omega)
        rw [hih]
        have hstep : maxR ≤ 0 ∨ ((acc.length : Int) + 1) < maxR := by
          simp at hstop
          rcases hcap with hcap | hcap
          · exact Or.inl hcap
          · rcases le_or_lt maxR 0 with h0 | h0
            · exact Or.inl h0
            · exact Or.inr (by have := hstop h0; omega)
        rw [capList_cons hstep]
        simp only [List.length_append, List.length_cons, List.length_nil, Nat.cast_add,
          Nat.cast_one, Nat.cast_zero, Nat.zero_add, List.append_assoc,
          List.singleton_append, List.filter_cons]

theorem countExprLoop_suffix (db : DB) (hO : db.isOpen = true)
    (pred : Int → Row → Bool) :
    ∀ (s t : List Nat) (n count fuel : Nat),
      order db = t ++ n :: s → (order db).Nodup → s.length < fuel →
      countExprLoop pred fuel { db with cur := .pos n } count =
        (count + (n :: s).countP (fun (r : Nat) => pred (r : Int) (rowAt db r)),
         { db with cur := .eof }) := by
  intro s
  induction s with
  | nil =>
    intro t n count fuel hord hnd hfuel
    rcases fuel with _ | f
    · omega
    unfold countExprLoop
    rw [show EOF { db with cur := .pos n } = false from EOF_pos rfl, if_bool_false,
      show Position { db with cur := .pos n } = (n : Int) from Position_pos hO rfl,
      show currentRow { db with cur := .pos n } = rowAt db n from rfl,
      @Next_pos { db with cur := .pos n } n hO rfl t [] hord hnd]
    simp only [List.head?_nil]
    rcases hp : pred (n : Int) (rowAt db n) <;> simp [hp, List.countP_cons]
  | cons m s2 ih =>
    intro t n count fuel hord hnd hfuel
    rcases fuel with _ | f
    · omega
    unfold countExprLoop
    rw [show EOF { db with cur := .pos n } = false from EOF_pos rfl, if_bool_false,
      show Position { db with cur := .pos n } = (n : Int) from Position_pos hO rfl,
      show currentRow { db with cur := .pos n } = rowAt db n from rfl,
      @Next_pos { db with cur := .pos n } n hO rfl t (m :: s2) hord hnd]
    simp only [List.head?_cons]
    rw [ih (t ++ [n]) m _ f (by simpa using hord) hnd (by simp at hfuel ⊢; omega)]
    rcases hp : pred (n : Int) (rowAt db n) <;> simp [hp, List.countP_cons] <;> omega

/-- C4, counterexample: with an index ordering selected (table `revDB`,
whose tag reverses physical order), `SearchByExpression` collects its
matches in the selected index order — record 2 before record 1 — not
in physical order as the claim states; and a search started at BOF
exits at EOF instead of the starting cursor state. -/
theorem C4_search_walks_selected_ordering :
    (SearchByExpression revDB (fun _ _ => true) ⟨0, false⟩).1 =
      .ok ⟨[⟨2, ⟨"a", false⟩⟩, ⟨1, ⟨"b", false⟩⟩], 2, 2⟩ ∧
    [(2 : Int), 1] ≠ [1, 2] ∧
    bofDB.cur = Cursor.bof ∧
    (SearchByExpression bofDB (fun _ _ => true) ⟨0, false⟩).2.cur = Cursor.eof := by
  decide

/-- C4 (amended): for an open table positioned at a row, the predicate
searches walk `first…EOF…next` under the currently selected ordering
(physical only when no index ordering is selected), evaluate the
predicate once per row, collect one entry (record number plus row
snapshot) per match in traversal order truncated at a positive
max-count, and restore the caller's entire cursor state — position and
ordering — on completion, early stop, or callback error; a caller at
BOF or EOF has no saved record number and is left at the sweep's
end. -/
theorem C4_expression_search_characterized (db : DB) (n : Nat)
    (pred : Int → Row → Bool) (opts : ExprSearchOptionsM) (cb : Row → Except Err Unit)
    (hOpen : Active db = true) (hcur : db.cur = .pos n)
    (h1 : 1 ≤ n) (h2 : n ≤ db.rows.length) :
    (∃ res, (SearchByExpression db pred opts).1 = .ok res ∧
      res.matchList = capList opts.maxResults
        (((order db).filter (fun (r : Nat) => pred (r : Int) (rowAt db r))).map
          (fun (r : Nat) => (⟨(r : Int), rowAt db r⟩ : ExprMatchM)))) ∧
    (SearchByExpression db pred opts).2 = db ∧
    goIntOf (CountByExpression db pred).1 =
      (((order db).countP (fun (r : Nat) => pred (r : Int) (rowAt db r)) : Nat) : Int) ∧
    (CountByExpression db pred).2 = db ∧
    (ForEachExpressionMatch db pred cb).2 = db := by
  have hO : db.isOpen = true := hOpen
  have hlen : (order db).length = db.rows.length := by
    rw [(order_perm_phys db).length_eq]
    simp [physOrder]
  rcases hord : order db with _ | ⟨r0, rest⟩
  · rw [hord] at hlen
    simp at hlen
    omega
  have hrest : rest.length < db.rows.length + 1 := by
    rw [hord] at hlen
    simp at hlen
    omega
  have hFirst : First db = (.ok (), { db with cur := .pos r0 }) := by
    rw [First_eq hO, hord]
  have hd4 : ∀ db2 : DB, sameFrame { db with cur := .pos r0 } db2 →
      restorePos (Position db) db2 = db := by
    intro db2 hframe
    have h2open : db2.isOpen = true := by rw [hframe.1]; exact hO
    rw [Position_pos hO hcur,
      restorePos_spec db2 n h2open h1 (by rw [hframe.2.2.1]; exact h2)]
    exact DB.ext' hframe.1 hframe.2.1 hframe.2.2.1 hframe.2.2.2.1 hframe.2.2.2.2
      hcur.symm
  refine ⟨?_, ?_, ?_, ?_, ?_⟩
  · rcases hloop : searchExprLoop pred opts.maxResults (db.rows.length + 1)
        { db with cur := .pos r0 } [] 0 with ⟨accR, scanR, dbR⟩
    have hchar := searchExprLoop_suffix db hO pred opts.maxResults rest [] r0 [] 0
      (db.rows.length + 1) hord (order_nodup db) hrest (by simp; omega)
    rw [hloop] at hchar
    simp only [List.nil_append, List.length_nil, Nat.cast_zero, sub_zero] at hchar
    have hSearch : SearchByExpression db pred opts =
        (.ok ⟨accR, scanR, accR.length⟩, restorePos (Position db) dbR) := by
      unfold SearchByExpression
      rw [show Active db = true from hO, if_not_true, hFirst]
      simp only []
      rw [hloop]
    rw [hSearch]
    exact ⟨⟨accR, scanR, accR.length⟩, rfl, hchar⟩
  · rcases hloop : searchExprLoop pred opts.maxResults (db.rows.length + 1)
        { db with cur := .pos r0 } [] 0 with ⟨accR, scanR, dbR⟩
    have hframe := searchExprLoop_sameFrame pred opts.maxResults (db.rows.length + 1)
      { db with cur := .pos r0 } [] 0
    rw [hloop] at hframe
    have hSearch : SearchByExpression db pred opts =
        (.ok ⟨accR, scanR, accR.length⟩, restorePos (Position db) dbR) := by
      unfold SearchByExpression
      rw [show Active db = true from hO, if_not_true, hFirst]
      simp only []
      rw [hloop]
    rw [hSearch]
    exact hd4 dbR hframe
  · rcases hloop : countExprLoop pred (db.rows.length + 1)
        { db with cur := .pos r0 } 0 with ⟨cntR, dbR⟩
    have hchar := countExprLoop_suffix db hO pred rest [] r0 0
      (db.rows.length + 1) hord (order_nodup db) hrest
    rw [hloop] at hchar
    have hCount : CountByExpression db pred =
        (.ok ((cntR : Nat) : Int), restorePos (Position db) dbR) := by
      unfold CountByExpression
      rw [show Active db = true from hO, if_not_true, hFirst]
      simp only []
      rw [hloop]
    rw [hCount]
    have hcnt : cntR = (r0 :: rest).countP (fun (r : Nat) => pred (r : Int) (rowAt db r)) := by
      have := congrArg Prod.fst hchar
      simpa using this
    rw [show goIntOf (.ok ((cntR : Nat) : Int)) = ((cntR : Nat) : Int) from rfl, hcnt]
  · rcases hloop : countExprLoop pred (db.rows.length + 1)
        { db with cur := .pos r0 } 0 with ⟨cntR, dbR⟩
    have hframe := countExprLoop_sameFrame pred (db.rows.length + 1)
      { db with cur := .pos r0 } 0
    rw [hloop] at hframe
    have hCount : CountByExpression db pred =
        (.ok ((cntR : Nat) : Int), restorePos (Position db) dbR) := by
      unfold CountByExpression
      rw [show Active db = true from hO, if_not_true, hFirst]
      simp only []
      rw [hloop]
    rw [hCount]
    exact hd4 dbR hframe
  · rcases hloop : forEachExprLoop pred cb (db.rows.length + 1)
        { db with cur := .pos r0 } with ⟨resR, dbR⟩
    have hframe := forEachExprLoop_sameFrame pred cb (db.rows.length + 1)
      { db with cur := .pos r0 }
    rw [hloop] at hframe
    have hFE : ForEachExpressionMatch db pred cb =
        (resR, restorePos (Position db) dbR) := by
      unfold ForEachExpressionMatch
      rw [show Active db = true from hO, if_not_true, hFirst]
      simp only []
      rw [hloop]
    rw [hFE]
    exact hd4 dbR hframe

/-- C4, witness: the amended theorem instantiated on the witness table
positioned at record 2, with the predicate selecting deleted rows. -/
theorem C4_expression_search_characterized_witness :
    (∃ res, (SearchByExpression wdb (fun _ r => r.deleted) ⟨0, false⟩).1 = .ok res ∧
      res.matchList = capList (0 : Int)
        (((order wdb).filter (fun (r : Nat) => (fun (_ : Int) (r : Row) => r.deleted)
            (r : Int) (rowAt wdb r))).map
          (fun (r : Nat) => (⟨(r : Int), rowAt wdb r⟩ : ExprMatchM)))) ∧
    (SearchByExpression wdb (fun _ r => r.deleted) ⟨0, false⟩).2 = wdb ∧
    goIntOf (CountByExpression wdb (fun _ r => r.deleted)).1 =
      (((order wdb).countP (fun (r : Nat) => (fun (_ : Int) (r : Row) => r.deleted)
          (r : Int) (rowAt wdb r)) : Nat) : Int) ∧
    (CountByExpression wdb (fun _ r => r.deleted)).2 = wdb ∧
    (ForEachExpressionMatch wdb (fun _ r => r.deleted) (fun _ => .ok ())).2 = wdb :=
  C4_expression_search_characterized wdb 2 (fun _ r => r.deleted) ⟨0, false⟩
    (fun _ => .ok ()) (by decide) (by decide) (by decide) (by decide)

/-- C1 (code bug): on table `c1db` — raw values `" A"` (record 1) and
`"A"` (record 2) in column NAME, indexed by a tag of the same name —
searching the pattern `^A` with the index optimization enabled returns
only record 2, while the full scan (the behaviour the claim describes,
and the one the repository's own regex test asserts must coincide with
the optimized path) matches records 1 and 2: the optimized path seeks
and prefix-compares the raw index key, but matches against the trimmed
value, so record 1's trimmed value `"A"` matches `^A` yet its raw key
`" A"` is outside the seek's prefix range.  Both runs restore the
caller's cursor. -/
theorem C1_index_optimization_drops_trimmed_matches :
    (RegexSearch c1db "NAME" "^A" caretA
        ⟨false, 0, true, ""⟩).1 =
      .ok ⟨"^A", [⟨2, "A", [(0, 1)]⟩], 1, 1⟩ ∧
    (RegexSearch c1db "NAME" "^A" caretA
        ⟨false, 0, false, ""⟩).1 =
      .ok ⟨"^A", [⟨1, "A", [(0, 1)]⟩, ⟨2, "A", [(0, 1)]⟩], 2, 2⟩ ∧
    [(2 : Int)] ≠ [1, 2] ∧
    (RegexSearch c1db "NAME" "^A" caretA ⟨false, 0, true, ""⟩).2 = c1db ∧
    (RegexSearch c1db "NAME" "^A" caretA ⟨false, 0, false, ""⟩).2 = c1db := by
  decide

end Vulpo
